import Mathlib

/-!
Verification of the chain-tracking core of `bdk_core_staging`.

The development shallowly embeds the Rust sources:
  * `bdk_chain/src/tx_graph.rs`               (namespace `Tg`)
  * `bdk_chain/src/keychain/keychain_tracker.rs` (namespace `Kt`)
  * `bdk_core/src/descriptor_tracker.rs`      (namespace `Dt`)
and, where the deciding code of the repository is not available (the
`SparseChain` implementation, for which only its test-suite
`bdk_core/tests/test_sparse_chain.rs` is present), models it from the
specification (namespace `Sc`).

Machine integers (`u32`, `u64`) are embedded as `Nat`; none of the verified
paths can overflow, and Rust's `saturating_sub` is exactly `Nat` subtraction.
Hashes (`Txid`, `BlockHash`, `Script`) are abstracted to `Nat`: the code
treats them as opaque comparable identifiers.  `HashMap`/`BTreeMap` values
are embedded as association lists with unique keys; every `BTreeMap` query
that relies on key order (`iter().last()`, `range(h..)`, `split_off`) is
embedded by its key-order semantics (maximal key, minimal key `≥ h`,
partition by `≥ h`) so that the embedding does not depend on the physical
order of the list.
-/

/-- Lookup in an association list (embeds `HashMap::get` / `BTreeMap::get`). -/
def alookup {κ α : Type} [DecidableEq κ] : List (κ × α) → κ → Option α
  | [], _ => none
  | (k', v) :: l, k => if k' = k then some v else alookup l k

/-- Insert into an association list, replacing the value in place when the key
is present (embeds `HashMap::insert` / `BTreeMap::insert`). -/
def ainsert {κ α : Type} [DecidableEq κ] : List (κ × α) → κ → α → List (κ × α)
  | [], k, v => [(k, v)]
  | (k', v') :: l, k, v => if k' = k then (k, v) :: l else (k', v') :: ainsert l k v

/-- Remove a key from an association list (embeds `remove`). -/
def aremove {κ α : Type} [DecidableEq κ] : List (κ × α) → κ → List (κ × α)
  | [], _ => []
  | (k', v) :: l, k => if k' = k then aremove l k else (k', v) :: aremove l k

/-- Entry with the greatest key (embeds `BTreeMap::iter().last()` /
`values().rev().next()`). On the unique-key lists produced by the embedding
ties cannot occur. -/
def maxKeyEntry {α : Type} : List (Nat × α) → Option (Nat × α)
  | [] => none
  | x :: l =>
    match maxKeyEntry l with
    | none => some x
    | some y => if y.1 ≤ x.1 then some x else some y

/-- Entry with the least key among those with key `≥ h` (embeds
`BTreeMap::range(h..).next()`). -/
def minKeyEntryGe {α : Type} (l : List (Nat × α)) (h : Nat) : Option (Nat × α) :=
  (l.filter (fun p => h ≤ p.1)).foldl
    (fun acc x =>
      match acc with
      | none => some x
      | some y => if x.1 ≤ y.1 then some x else some y)
    none

/-- Entry with the greatest key among those with key `< h` (embeds
`BTreeMap::range(..h).last()`). -/
def maxKeyEntryLt {α : Type} (l : List (Nat × α)) (h : Nat) : Option (Nat × α) :=
  maxKeyEntry (l.filter (fun p => p.1 < h))

/-- Insert into a list used with set semantics (embeds `HashSet::insert` /
`BTreeSet::insert`). -/
def sinsert {α : Type} [DecidableEq α] (l : List α) (a : α) : List α :=
  if a ∈ l then l else l ++ [a]

/-- Remove from a list used with set semantics (embeds `HashSet::remove`). -/
def sremove {α : Type} [DecidableEq α] : List α → α → List α
  | [], _ => []
  | x :: l, a => if x = a then sremove l a else x :: sremove l a

/-! ## Bitcoin data model (external collaborator types)

`bitcoin::OutPoint`, `TxOut`, `TxIn`, `Transaction`.  A transaction's txid is
the hash of its canonical encoding; the embedding carries it as a field
(`txid`), standing for that hash.  `weight` likewise stands for
`Transaction::weight()`. -/

structure OutPoint where
  txid : Nat
  vout : Nat
deriving DecidableEq, Repr

/-- Rust `OutPoint::is_null`: the all-zero txid together with `vout == u32::MAX`. -/
def OutPoint.is_null (op : OutPoint) : Bool :=
  op.txid == 0 && op.vout == 4294967295

structure TxOutV where
  value : Nat
  script_pubkey : Nat
deriving DecidableEq, Repr

structure TxIn where
  previous_output : OutPoint
deriving DecidableEq, Repr

structure Tx where
  txid : Nat
  input : List TxIn
  output : List TxOutV
  weight : Nat
deriving DecidableEq, Repr

namespace Tg

/-! ## TxGraph (`bdk_chain/src/tx_graph.rs`) -/

/-- Node of a `TxGraph`: either a whole transaction or the partially known
outputs of one (`vout ↦ TxOut`). -/
inductive TxNode where
  | whole (tx : Tx)
  | parts (txouts : List (Nat × TxOutV))
deriving DecidableEq, Repr

structure TxGraph where
  txs : List (Nat × TxNode)
  spends : List (OutPoint × List Nat)
deriving DecidableEq, Repr

def emptyGraph : TxGraph := ⟨[], []⟩

/-- `TxGraph::txout`: the output at `outpoint`, if known (from the whole
transaction or from a partial node). -/
def txout (g : TxGraph) (outpoint : OutPoint) : Option TxOutV :=
  match alookup g.txs outpoint.txid with
  | none => none
  | some (TxNode.whole tx) => tx.output.get? outpoint.vout
  | some (TxNode.parts txouts) => alookup txouts outpoint.vout

/-- `TxGraph::insert_tx`: add a whole transaction.  Rust first performs
`self.txs.insert(txid, Whole(tx))` and inspects the previous node: when a
whole transaction was already present it returns `false` without updating
`spends`; otherwise every non-null input's previous output gains `txid` as a
spender and it returns `true`. -/
def insert_tx (g : TxGraph) (tx : Tx) : Bool × TxGraph :=
  let txid := tx.txid
  let old := alookup g.txs txid
  let g' : TxGraph := { g with txs := ainsert g.txs txid (TxNode.whole tx) }
  match old with
  | some (TxNode.whole _) => (false, g')
  | _ =>
    let g'' := tx.input.foldl
      (fun (g : TxGraph) txin =>
        if txin.previous_output.is_null then g
        else
          let entry := (alookup g.spends txin.previous_output).getD []
          { g with spends := ainsert g.spends txin.previous_output (sinsert entry txid) })
      g'
    (true, g'')

/-- Result of `TxGraph::calculate_fee`.  The Rust signature is
`Option<u64>`: `missing` is the `None` of a prevout unknown to the graph,
while `panicked` is the `expect("tx graph has invalid data")` on
`checked_sub` when the outputs sum exceeds the inputs sum. -/
inductive FeeResult where
  | ok (fee : Nat)
  | missing
  | panicked
deriving DecidableEq, Repr

/-- Sum of the values of the prevouts of `inputs` known to the graph;
`none` when any prevout is unknown (embeds the `sum::<Option<u64>>()`). -/
def sumPrevouts (g : TxGraph) : List TxIn → Option Nat
  | [] => some 0
  | txin :: rest =>
    match txout g txin.previous_output with
    | none => none
    | some t =>
      match sumPrevouts g rest with
      | none => none
      | some s => some (t.value + s)

/-- `TxGraph::calculate_fee`: inputs sum minus outputs sum when every prevout
is known; `checked_sub(...).expect(...)` panics when the difference would be
negative. -/
def calculate_fee (g : TxGraph) (tx : Tx) : FeeResult :=
  match sumPrevouts g tx.input with
  | none => FeeResult.missing
  | some inputs_sum =>
    let outputs_sum := (tx.output.map (fun o => o.value)).sum
    if outputs_sum ≤ inputs_sum then FeeResult.ok (inputs_sum - outputs_sum)
    else FeeResult.panicked

end Tg

namespace Sc

/-! ## SparseChain

Modelled from the spec: the repository's `SparseChain` implementation is not
among the provided sources; only its test-suite
(`bdk_core/tests/test_sparse_chain.rs`) is.  The definitions below follow
spec §4.2 ("Central operation: `apply_update`"): the `Update` record, the
ordered validation rules 1–6 (first failure aborts without mutation) and the
commit steps 1–4, together with the error type `StaleReason` whose variants
and fields appear in the test-suite. -/

/-- Modelled from the spec: `TxHeight = Confirmed(height) | Unconfirmed`. -/
inductive TxHeight where
  | confirmed (height : Nat)
  | unconfirmed
deriving DecidableEq, Repr

/-- `BlockId = (height, hash)`. -/
structure BlockId where
  height : Nat
  hash : Nat
deriving DecidableEq, Repr

/-- Modelled from the spec: `SparseChain` state — `checkpoints` (height ↦
hash), the positional txid index, and the optional checkpoint limit.  The
inverse index `pos_to_txid` is derivable from `txid_to_pos` and carries no
extra state, so it is not embedded separately. -/
structure SparseChain where
  checkpoints : List (Nat × Nat)
  txidToPos : List (Nat × TxHeight)
  checkpointLimit : Option Nat
deriving DecidableEq, Repr

/-- Modelled from the spec / tests: the reasons `apply_update` rejects an
update.  Spec rule 4 names no error variant and the tests never reach it;
it is given its own constructor `newTipConflictsInvalidate`. -/
inductive StaleReason where
  | unexpectedLastValid (got expected : Option BlockId)
  | lastValidConflictsNewTip (last_valid new_tip : BlockId)
  | txidHeightGreaterThanTip (new_tip : BlockId) (txid : Nat × TxHeight)
  | txUnexpectedlyMoved (txid : Nat) (fromPos toPos : TxHeight)
  | newTipConflictsInvalidate (invalidate new_tip : BlockId)
deriving DecidableEq, Repr

/-- Modelled from the spec: `Update = (last_valid, new_tip, invalidate,
txids)`. -/
structure UpdateS where
  lastValid : Option BlockId
  invalidate : Option BlockId
  newTip : BlockId
  txids : List (Nat × TxHeight)
deriving DecidableEq, Repr

/-- `Update::new(last_valid, new_tip)` of the test-suite: no invalidation and
no txids. -/
def UpdateS.new (lastValid : Option BlockId) (newTip : BlockId) : UpdateS :=
  { lastValid := lastValid, invalidate := none, newTip := newTip, txids := [] }

/-- The local tip: the checkpoint with the greatest height. -/
def latestCheckpoint (s : SparseChain) : Option BlockId :=
  (maxKeyEntry s.checkpoints).map (fun p => ⟨p.1, p.2⟩)

/-- The checkpoint immediately preceding height `h` in the local chain. -/
def prevCheckpoint (s : SparseChain) (h : Nat) : Option BlockId :=
  (maxKeyEntryLt s.checkpoints h).map (fun p => ⟨p.1, p.2⟩)

/-- Rules 1–2: coherence of `last_valid` with the local chain.  With an
invalidation, `last_valid` must be the checkpoint immediately preceding the
invalidated one; without, it must be the local tip. -/
def checkLastValid (s : SparseChain) (u : UpdateS) : Option StaleReason :=
  match u.invalidate with
  | some inv =>
    let expected := prevCheckpoint s inv.height
    if u.lastValid = expected then none
    else some (StaleReason.unexpectedLastValid u.lastValid expected)
  | none =>
    let expected := latestCheckpoint s
    if u.lastValid = expected then none
    else some (StaleReason.unexpectedLastValid u.lastValid expected)

/-- Rule 3: `new_tip` must not conflict with `last_valid` — its height is at
least `last_valid.height`, and equal heights force equal hashes. -/
def checkNewTipVsLastValid (u : UpdateS) : Option StaleReason :=
  match u.lastValid with
  | none => none
  | some lv =>
    if lv.height < u.newTip.height then none
    else if lv.height = u.newTip.height ∧ lv.hash = u.newTip.hash then none
    else some (StaleReason.lastValidConflictsNewTip lv u.newTip)

/-- Rule 4: `new_tip.height ≥ invalidate.height`, and when equal the hashes
must differ. -/
def checkNewTipVsInvalidate (u : UpdateS) : Option StaleReason :=
  match u.invalidate with
  | none => none
  | some inv =>
    if inv.height < u.newTip.height then none
    else if inv.height = u.newTip.height ∧ inv.hash ≠ u.newTip.hash then none
    else some (StaleReason.newTipConflictsInvalidate inv u.newTip)

/-- Rule 5: every update txid confirmed at `h` must satisfy
`h ≤ new_tip.height`. -/
def checkTxHeights (u : UpdateS) : Option StaleReason :=
  u.txids.findSome? fun (t, pos) =>
    match pos with
    | TxHeight.confirmed h =>
      if u.newTip.height < h then
        some (StaleReason.txidHeightGreaterThanTip u.newTip (t, pos))
      else none
    | TxHeight.unconfirmed => none

/-- Rule 6 for a single update entry `(t, newPos)`: a locally known txid may
keep its position; a confirmed position may change only when the
invalidation scope covers its height; an unconfirmed txid may move (be
promoted) freely — mempool positions carry no checkpoint commitment. -/
def moveEntry (s : SparseChain) (u : UpdateS) (q : Nat × TxHeight) : Option StaleReason :=
  match alookup s.txidToPos q.1 with
  | none => none
  | some oldPos =>
    if q.2 = oldPos then none
    else
      match oldPos with
      | TxHeight.unconfirmed => none
      | TxHeight.confirmed h =>
        match u.invalidate with
        | some inv =>
          if inv.height ≤ h then none
          else some (StaleReason.txUnexpectedlyMoved q.1 oldPos q.2)
        | none => some (StaleReason.txUnexpectedlyMoved q.1 oldPos q.2)

/-- Rule 6 (txid-movement) over the whole update: the first illegal
movement aborts. -/
def checkTxMove (s : SparseChain) (u : UpdateS) : Option StaleReason :=
  u.txids.findSome? (moveEntry s u)

/-- The ordered validation pass: the first failing rule aborts. -/
def validate (s : SparseChain) (u : UpdateS) : Option StaleReason :=
  match checkLastValid s u with
  | some e => some e
  | none =>
  match checkNewTipVsLastValid u with
  | some e => some e
  | none =>
  match checkNewTipVsInvalidate u with
  | some e => some e
  | none =>
  match checkTxHeights u with
  | some e => some e
  | none => checkTxMove s u

/-- Remove one entry of minimal height (used FIFO-pruning the oldest
checkpoint). -/
def eraseMinH : List (Nat × Nat) → List (Nat × Nat)
  | [] => []
  | x :: xs => if xs.all (fun y => x.1 ≤ y.1) then xs else x :: eraseMinH xs

/-- Drop `k` oldest checkpoints. -/
def dropOldest : Nat → List (Nat × Nat) → List (Nat × Nat)
  | 0, l => l
  | k + 1, l => dropOldest k (eraseMinH l)

/-- Commit step 4: when the limit is set and exceeded, drop the oldest
checkpoints down to the limit.  Only headers are pruned; the txid index is
untouched. -/
def pruneCheckpoints (lim : Option Nat) (l : List (Nat × Nat)) : List (Nat × Nat) :=
  match lim with
  | none => l
  | some n => dropOldest (l.length - n) l

/-- Commit steps 1–3: apply the invalidation (removing checkpoints of height
`≥ inv.height` and the txids confirmed there), insert the new tip, merge the
update's txids. -/
def commitCore (s : SparseChain) (u : UpdateS) : SparseChain :=
  let s₁ :=
    match u.invalidate with
    | none => s
    | some inv =>
      { s with
        checkpoints := s.checkpoints.filter (fun p => p.1 < inv.height),
        txidToPos := s.txidToPos.filter (fun p =>
          match p.2 with
          | TxHeight.confirmed h => h < inv.height
          | TxHeight.unconfirmed => true) }
  let s₂ := { s₁ with checkpoints := ainsert s₁.checkpoints u.newTip.height u.newTip.hash }
  { s₂ with txidToPos := u.txids.foldl (fun m p => ainsert m p.1 p.2) s₂.txidToPos }

/-- The full commit: steps 1–3 then the checkpoint-limit pruning. -/
def commit (s : SparseChain) (u : UpdateS) : SparseChain :=
  let s' := commitCore s u
  { s' with checkpoints := pruneCheckpoints s'.checkpointLimit s'.checkpoints }

/-- Modelled from the spec: `SparseChain::apply_update` — validate, then
commit; the first failing rule aborts without mutation. -/
def applyUpdateS (s : SparseChain) (u : UpdateS) : Except StaleReason SparseChain :=
  match validate s u with
  | some e => Except.error e
  | none => Except.ok (commit s u)

/-- Number of confirmed txids (`iter_confirmed_txids().count()`). -/
def countConfirmed (s : SparseChain) : Nat :=
  (s.txidToPos.filter (fun p =>
    match p.2 with
    | TxHeight.confirmed _ => true
    | TxHeight.unconfirmed => false)).length

end Sc

namespace Kt

/-! ## KeychainTracker (`bdk_chain/src/keychain/keychain_tracker.rs`)

The tracker's `txout_index : KeychainTxOutIndex<K>` and `chain_graph :
ChainGraph<P>` are defined outside the provided sources; the claims settled
here concern only the derivation indices, so the embedding keeps, per
keychain (embedded as `Nat`), the value that
`KeychainTxOutIndex::derivation_index` reports (spec §4.4: `last_active[K]`,
absent when the keychain has seen no active script).  The `ChainGraph` half
of the changeset is delegated verbatim by the source and is not embedded. -/

/-- Modelled from the spec: the derivation-index view of
`KeychainTxOutIndex` — `derivation_index(K)` returns `last_active[K]`
(`None` when unset). -/
def derivation_index (idx : List (Nat × Nat)) (k : Nat) : Option Nat :=
  alookup idx k

/-- The derivation-index half of `KeychainTracker::determine_changeset`:
`scan.last_active_indexes` retained at the entries strictly greater than the
current index (`BTreeMap::retain` is `List.filter` on the entry list). -/
def determine_changeset_indices (idx : List (Nat × Nat))
    (lastActiveIndexes : List (Nat × Nat)) : List (Nat × Nat) :=
  lastActiveIndexes.filter fun p =>
    match derivation_index idx p.1 with
    | some existing => decide (existing < p.2)
    | none => true

/-- Modelled from the spec: applying the derivation-index half of a
changeset — `store_all_up_to` ensures the index for each keychain is at
least the changeset's entry (spec §4.4: `last_active` is monotone and only
ever advances). -/
def apply_changeset_indices (idx : List (Nat × Nat))
    (derivationIndices : List (Nat × Nat)) : List (Nat × Nat) :=
  derivationIndices.foldl
    (fun m p =>
      match alookup m p.1 with
      | some existing => ainsert m p.1 (Nat.max existing p.2)
      | none => ainsert m p.1 p.2)
    idx

end Kt

namespace Dt

/-! ## DescriptorTracker (`bdk_core/src/descriptor_tracker.rs`)

The descriptor collaborator is embedded as a function `Nat → Nat` from
derivation index to script together with its `is_deriveable()` flag.
`feerate` is stored in the source as an `f32` quotient `fee / weight`
computed at insertion time; the embedding keeps `fee` and the transaction
(whose `weight` field stands for `Transaction::weight()`) and compares
feerates as exact rationals by cross-multiplication. -/

structure BlockTime where
  height : Nat
  time : Nat
deriving DecidableEq, Repr

structure CheckPoint where
  height : Nat
  hash : Nat
deriving DecidableEq, Repr

/-- The `PrevOuts` input descriptor passed alongside each update
transaction. -/
inductive PrevOuts where
  | coinbase
  | spend (txouts : List TxOutV)
deriving DecidableEq, Repr

/-- `AugmentedTx` metadata (`feerate` is recomputable from `fee` and
`tx.weight` and is not stored separately). -/
structure AugmentedTx where
  tx : Tx
  fee : Nat
  confirmation_time : Option BlockTime
deriving DecidableEq, Repr

/-- `DescriptorTracker` state.  `checkpointed_txs` maps a height to the
block hash and the txids the checkpoint carries. -/
structure Tracker where
  descriptor : Nat → Nat
  deriveable : Bool
  checkpointed_txs : List (Nat × Nat × List Nat)
  txouts : List (OutPoint × Nat)
  spends : List (OutPoint × Nat × Nat)
  unspent : List OutPoint
  scripts : List Nat
  script_indexes : List (Nat × Nat)
  script_txouts : List (Nat × List OutPoint)
  unused : List Nat
  txs : List (Nat × AugmentedTx)
  mempool : List Nat
  latest_blockheight : Option Nat

/-- `DescriptorTracker::new`. -/
def mkTracker (descriptor : Nat → Nat) (deriveable : Bool) : Tracker :=
  { descriptor := descriptor, deriveable := deriveable, checkpointed_txs := [],
    txouts := [], spends := [], unspent := [], scripts := [], script_indexes := [],
    script_txouts := [], unused := [], txs := [], mempool := [],
    latest_blockheight := none }

/-- `DescriptorTracker::latest_checkpoint`: the checkpoint of greatest
height. -/
def latest_checkpoint (t : Tracker) : Option CheckPoint :=
  (maxKeyEntry t.checkpointed_txs).map (fun p => ⟨p.1, p.2.1⟩)

/-- `DescriptorTracker::checkpoint_at`. -/
def checkpoint_at (t : Tracker) (height : Nat) : Option CheckPoint :=
  (alookup t.checkpointed_txs height).map (fun p => ⟨height, p.1⟩)

/-- `DescriptorTracker::best_checkpoint_for`: the first checkpoint at height
`≥ height`. -/
def best_checkpoint_for (t : Tracker) (height : Nat) : Option CheckPoint :=
  (minKeyEntryGe t.checkpointed_txs height).map (fun p => ⟨p.1, p.2.1⟩)

/-- `DescriptorTracker::index_of_derived_script`. -/
def index_of_derived_script (t : Tracker) (script : Nat) : Option Nat :=
  alookup t.script_indexes script

/-- Remove `op` from the `script_txouts` entry of `derivation_index`
(`get_mut(..).expect("guaranteed to exist")` in the source; an absent entry
would panic there and is left unchanged here). -/
def scriptTxoutsRemove (m : List (Nat × List OutPoint)) (derivation_index : Nat)
    (op : OutPoint) : List (Nat × List OutPoint) :=
  match alookup m derivation_index with
  | some s => ainsert m derivation_index (sremove s op)
  | none => m

/-- The per-input body of `remove_tx`'s first loop: drop the spend record
of `input.previous_output` and, when that outpoint is tracker-owned,
re-mark it unspent. -/
def removeSpendStep (t : Tracker) (input : TxIn) : Tracker :=
  let t := { t with spends := aremove t.spends input.previous_output }
  if (alookup t.txouts input.previous_output).isSome then
    { t with unspent := sinsert t.unspent input.previous_output }
  else t

/-- The per-output body of `remove_tx`'s second loop: un-index the removed
transaction's own outpoint `(txid, i)` from `txouts` and `script_txouts`. -/
def removeTxoutStep (txid : Nat) (t : Tracker) (i : Nat) : Tracker :=
  let txout_to_remove : OutPoint := ⟨txid, i⟩
  match alookup t.txouts txout_to_remove with
  | some derivation_index =>
    { t with txouts := aremove t.txouts txout_to_remove,
             script_txouts := scriptTxoutsRemove t.script_txouts derivation_index txout_to_remove }
  | none => t

/-- `DescriptorTracker::remove_tx`: drop the transaction, freeing the spends
of its inputs (re-marking tracker-owned prevouts unspent) and un-indexing
its own outputs; finally drop it from the mempool.  NOTE (faithful to the
source): the transaction's own outpoints are removed from `txouts` and
`script_txouts` but not from `unspent`. -/
def remove_tx (t : Tracker) (txid : Nat) : Tracker :=
  match alookup t.txs txid with
  | none => t
  | some aug_tx =>
    let t := { t with txs := aremove t.txs txid }
    let t := aug_tx.tx.input.foldl removeSpendStep t
    let t := (List.range aug_tx.tx.output.length).foldl (removeTxoutStep txid) t
    { t with mempool := sremove t.mempool txid }

/-- The feerate comparison `self.txs[cid].feerate > feerate` of `add_tx`,
as the exact rational comparison `a.fee / a.tx.weight > fee / weight`. -/
def feerateGt (a : AugmentedTx) (fee weight : Nat) : Bool :=
  decide (fee * a.tx.weight < a.fee * weight)

/-- `DescriptorTracker::add_tx`.  Conflicting mempool transactions are
evicted (unless one has a strictly higher feerate, in which case the new
transaction is dropped); the inputs are recorded as spends, tracker-owned
outputs are indexed, and the transaction is filed under its checkpoint (the
first at height `≥` the confirmation height, onto which all later
checkpoints are rebased) or into the mempool. -/
def add_tx (t : Tracker) (inputs : PrevOuts) (tx : Tx)
    (confirmation_time : Option BlockTime) : Tracker :=
  let txid := tx.txid
  let inputs_sum : Nat :=
    match inputs with
    | PrevOuts.coinbase => 0
    | PrevOuts.spend txouts => (txouts.map (fun o => o.value)).sum
  let outputs_sum := (tx.output.map (fun o => o.value)).sum
  let fee := inputs_sum - outputs_sum
  let conflicts := tx.input.filterMap
    (fun input => (alookup t.spends input.previous_output).map (fun p => p.2))
  let bail : Bool :=
    match confirmation_time with
    | some _ => false
    | none =>
      (conflicts.find? (fun conflicting_txid =>
        match alookup t.txs conflicting_txid with
        | some a => feerateGt a fee tx.weight
        | none => false)).isSome
  if bail then t
  else
    let t := conflicts.foldl remove_tx t
    let t := tx.input.enum.foldl
      (fun (t : Tracker) (p : Nat × TxIn) =>
        { t with spends := ainsert t.spends p.2.previous_output (p.1, txid),
                 unspent := sremove t.unspent p.2.previous_output })
      t
    let t := tx.output.enum.foldl
      (fun (t : Tracker) (p : Nat × TxOutV) =>
        match index_of_derived_script t p.2.script_pubkey with
        | none => t
        | some index =>
          let outpoint : OutPoint := ⟨txid, p.1⟩
          let t := { t with txouts := ainsert t.txouts outpoint index }
          let t :=
            if (alookup t.spends outpoint).isSome then t
            else { t with unspent := sinsert t.unspent outpoint }
          let txos_for_script := (alookup t.script_txouts index).getD []
          { t with script_txouts := ainsert t.script_txouts index (sinsert txos_for_script outpoint),
                   unused := sremove t.unused index })
      t
    let t : Tracker :=
      match confirmation_time with
      | some ct =>
        match minKeyEntryGe t.checkpointed_txs ct.height with
        | some (checkpoint_height, _) =>
          let removed := t.checkpointed_txs.filter
            (fun (p : Nat × Nat × List Nat) => checkpoint_height ≤ p.1)
          let kept := t.checkpointed_txs.filter
            (fun (p : Nat × Nat × List Nat) => p.1 < checkpoint_height)
          match maxKeyEntry removed with
          | some (tip_height, tip_hash, _) =>
            let txids := sinsert
              (((removed.map (fun (p : Nat × Nat × List Nat) => p.2.2)).flatten).foldl sinsert []) txid
            { t with checkpointed_txs := ainsert kept tip_height (tip_hash, txids),
                     mempool := sremove t.mempool txid }
          | none => t
        | none => t
      | none => { t with mempool := sinsert t.mempool txid }
    { t with txs := ainsert t.txs txid ⟨tx, fee, confirmation_time⟩ }

/-- `DescriptorTracker::invalidate_checkpoint`: drop all checkpoints of
height `≥ height` and remove every transaction they carried. -/
def invalidate_checkpoint (t : Tracker) (height : Nat) : Tracker :=
  let removed := t.checkpointed_txs.filter (fun p => height ≤ p.1)
  let t := { t with checkpointed_txs := t.checkpointed_txs.filter (fun p => p.1 < height) }
  ((removed.map (fun p => p.2.2)).flatten).foldl remove_tx t

/-- `DescriptorTracker::clear_mempool`. -/
def clear_mempool (t : Tracker) : Tracker :=
  let mempool := t.mempool
  let t := { t with mempool := [] }
  mempool.foldl remove_tx t

/-- `DescriptorTracker::disconnect_block`: clear the mempool, then, when the
checkpoint at `block_height` carries exactly `block_header`, invalidate from
that height on. -/
def disconnect_block (t : Tracker) (block_height : Nat) (block_header : Nat) : Tracker :=
  let t := clear_mempool t
  match alookup t.checkpointed_txs block_height with
  | some (existing_block_header, _) =>
    if existing_block_header = block_header then invalidate_checkpoint t block_height else t
  | none => t

/-- `DescriptorTracker::derive_scripts`: derive and store all scripts up to
and including `endIndex` (clamped to `0` for non-deriveable descriptors). -/
def derive_scripts (t : Tracker) (endIndex : Nat) : Tracker :=
  let endIndex := if t.deriveable then endIndex else 0
  let needed := (endIndex + 1) - t.scripts.length
  (List.range' t.scripts.length needed).foldl
    (fun (t : Tracker) index =>
      let script := t.descriptor index
      { t with scripts := t.scripts ++ [script],
               script_indexes := ainsert t.script_indexes script index,
               unused := sinsert t.unused index })
    t

inductive UpdateResult where
  | Ok
  | Stale
  | Inconsistent (txid conflicts_with : Nat) (at_checkpoint : CheckPoint)
deriving DecidableEq, Repr

/-- The `Update` consumed by `DescriptorTracker::apply_update`. -/
structure Update where
  transactions : List (PrevOuts × Tx × Option BlockTime)
  mempool_is_total_set : Bool
  last_active_index : Option Nat
  base_tip : Option CheckPoint
  invalidate : Option CheckPoint
  new_tip : CheckPoint
deriving Repr

/-- The consistency pass opening `apply_update`: the first update
transaction that contradicts a known confirmation time, or that spends a
prevout already spent by a confirmed transaction, yields `Inconsistent`.
The source `expect`s that a best checkpoint exists for a confirmed
transaction; the embedding defaults to `⟨0, 0⟩` on that (unreachable)
path. -/
def consistencyFailure (t : Tracker) (u : Update) : Option UpdateResult :=
  u.transactions.findSome? fun (p : PrevOuts × Tx × Option BlockTime) =>
    let tx := p.2.1
    let confirmation_time := p.2.2
    let txid := tx.txid
    let movedFailure : Option UpdateResult :=
      match alookup t.txs txid with
      | some existing =>
        match existing.confirmation_time with
        | some existing_time =>
          if confirmation_time ≠ some existing_time then
            some (UpdateResult.Inconsistent txid existing.tx.txid
              ((best_checkpoint_for t existing_time.height).getD ⟨0, 0⟩))
          else none
        | none => none
      | none => none
    match movedFailure with
    | some e => some e
    | none =>
      tx.input.findSome? fun input =>
        match alookup t.spends input.previous_output with
        | some (_, conflicting_txid) =>
          match alookup t.txs conflicting_txid with
          | some conflicting =>
            match conflicting.confirmation_time with
            | some conflicting_conftime =>
              some (UpdateResult.Inconsistent txid conflicting_txid
                ((best_checkpoint_for t conflicting_conftime.height).getD ⟨0, 0⟩))
            | none => none
          | none => none
        | none => none

/-- The mutation phase of a successful `apply_update` up to and including
adding the update's transactions: optionally clear the mempool, insert an
empty checkpoint entry at the new tip height if absent, then `add_tx` each
update transaction in order. -/
def applyGo (u : Update) (t : Tracker) : Tracker :=
  let t := if u.mempool_is_total_set then clear_mempool t else t
  let t :=
    match alookup t.checkpointed_txs u.new_tip.height with
    | some _ => t
    | none => { t with checkpointed_txs := ainsert t.checkpointed_txs u.new_tip.height (u.new_tip.hash, []) }
  u.transactions.foldl (fun t (p : PrevOuts × Tx × Option BlockTime) => add_tx t p.1 p.2.1 p.2.2) t

/-- The closing phase of a successful `apply_update`: when the checkpoint of
greatest height carries no txids, the entry at `new_tip.height` is removed;
`latest_blockheight` becomes `new_tip.height`.  (The source `unwrap`s the
greatest entry, which exists because one was inserted in `applyGo`.) -/
def applyFinish (u : Update) (t : Tracker) : Tracker :=
  let t :=
    match maxKeyEntry t.checkpointed_txs with
    | some (_, _, tip_txids) =>
      if tip_txids = [] then { t with checkpointed_txs := aremove t.checkpointed_txs u.new_tip.height }
      else t
    | none => t
  { t with latest_blockheight := some u.new_tip.height }

/-- `DescriptorTracker::apply_update`: the consistency pass, then script
derivation for `last_active_index`, then the invalidation / base-tip
staleness checks, and on success the mutation phases `applyGo` and
`applyFinish`. -/
def apply_update (t : Tracker) (u : Update) : UpdateResult × Tracker :=
  match consistencyFailure t u with
  | some e => (e, t)
  | none =>
    let t :=
      match u.last_active_index with
      | some last_active_index => derive_scripts t last_active_index
      | none => t
    match u.invalidate with
    | some checkpoint_reset =>
      match alookup t.checkpointed_txs checkpoint_reset.height with
      | some (existing_hash, _) =>
        if existing_hash ≠ checkpoint_reset.hash then
          if ((maxKeyEntryLt t.checkpointed_txs checkpoint_reset.height).map
                (fun p => CheckPoint.mk p.1 p.2.1)) = u.base_tip then
            let t := invalidate_checkpoint t checkpoint_reset.height
            (UpdateResult.Ok, applyFinish u (applyGo u t))
          else (UpdateResult.Stale, t)
        else (UpdateResult.Stale, t)
      | none => (UpdateResult.Stale, t)
    | none =>
      if u.base_tip ≠ latest_checkpoint t then (UpdateResult.Stale, t)
      else (UpdateResult.Ok, applyFinish u (applyGo u t))

end Dt

/-! ## Derived predicates and concrete instances used by the theorems -/

namespace Tg

/-- Sum of the prevout values of `tx` as seen by `g` (meaningful when every
prevout is known; unknown prevouts contribute their `getD` default). -/
def prevoutSum (g : TxGraph) (tx : Tx) : Nat :=
  (tx.input.map (fun txin => ((txout g txin.previous_output).getD ⟨0, 0⟩).value)).sum

/-- Sum of the output values of `tx`. -/
def outSum (tx : Tx) : Nat :=
  (tx.output.map (fun o => o.value)).sum

end Tg

namespace Sc

/-- The legal txid movements of spec rule 6, as the claim states them: keep
the old position, move a confirmed position covered by the invalidation
scope, or promote an unconfirmed txid to a confirmed height under the new
tip.  Unknown txids move freely. -/
def moveOK (s : SparseChain) (u : UpdateS) (t : Nat) (p : TxHeight) : Bool :=
  match alookup s.txidToPos t with
  | none => true
  | some oldPos =>
    if p = oldPos then true
    else
      match oldPos, u.invalidate with
      | TxHeight.confirmed h, some inv => decide (inv.height ≤ h)
      | TxHeight.confirmed _, none => false
      | TxHeight.unconfirmed, _ =>
        match p with
        | TxHeight.confirmed h => decide (h ≤ u.newTip.height)
        | TxHeight.unconfirmed => true

end Sc

namespace Dt

/-- Well-formedness used to reason about invalidation: every confirmed
transaction's txid is carried by a checkpoint at height at least its
confirmation height (`add_tx` files a confirmed tx under
`best_checkpoint_for` its height). -/
def wfConfirmed (t : Tracker) : Bool :=
  t.txs.all fun p =>
    match p.2.confirmation_time with
    | some bt =>
      t.checkpointed_txs.any fun c => decide (bt.height ≤ c.1) && decide (p.1 ∈ c.2.2)
    | none => true

/-- The intended meaning of the `unspent` field ("The unspent txouts", on
which `iter_unspent`'s `expect("txout must exist")` relies): `unspent` is
exactly the set of tracker-owned outpoints (`txouts` keys) that no recorded
spend consumes. -/
def invariantUnspent (t : Tracker) : Prop :=
  (∀ op ∈ t.unspent, (alookup t.txouts op).isSome ∧ alookup t.spends op = none) ∧
  (∀ p ∈ t.txouts, alookup t.spends p.1 = none → p.1 ∈ t.unspent)

instance invariantUnspent.decidable (t : Tracker) : Decidable (invariantUnspent t) := by
  unfold invariantUnspent
  infer_instance

end Dt

namespace Ex

/-! Concrete instances: scripts are `100 + i`; block hashes and txids are
small literals. -/

def descr : Nat → Nat := fun i => 100 + i

/-- A mempool transaction paying derivation index 0 (script `100`). -/
def tx9 : Tx := { txid := 10, input := [⟨⟨99, 0⟩⟩], output := [⟨1000, 100⟩], weight := 4 }

/-- An update carrying `tx9` unconfirmed (a purely-mempool update). -/
def u9 : Dt.Update :=
  { transactions := [(Dt.PrevOuts.spend [⟨2000, 999⟩], tx9, none)],
    mempool_is_total_set := true, last_active_index := some 0,
    base_tip := none, invalidate := none, new_tip := ⟨0, 50⟩ }

/-- The tracker after applying `u9` to a fresh tracker. -/
def t9 : Dt.Tracker := (Dt.apply_update (Dt.mkTracker descr true) u9).2

/-- A transaction confirmed at height 5. -/
def txT : Tx := { txid := 77, input := [⟨⟨88, 0⟩⟩], output := [⟨500, 42⟩], weight := 4 }

/-- An update confirming `txT` at height 5, tip `(5, 55)`. -/
def u10a : Dt.Update :=
  { transactions := [(Dt.PrevOuts.spend [⟨1000, 7⟩], txT, some ⟨5, 5⟩)],
    mempool_is_total_set := true, last_active_index := none,
    base_tip := none, invalidate := none, new_tip := ⟨5, 55⟩ }

/-- The tracker after applying `u10a` to a fresh tracker: one checkpoint
`(5, 55)` carrying txid 77. -/
def t10 : Dt.Tracker := (Dt.apply_update (Dt.mkTracker descr true) u10a).2

/-- A transaction-free update whose `new_tip` height 3 lies below the
tracker's tip height 5, with the matching `base_tip`. -/
def u10b : Dt.Update :=
  { transactions := [], mempool_is_total_set := false, last_active_index := none,
    base_tip := some ⟨5, 55⟩, invalidate := none, new_tip := ⟨3, 33⟩ }

/-- A stale update (its `base_tip` names a checkpoint a fresh tracker does
not have) that still carries `last_active_index = 0`. -/
def u1 : Dt.Update :=
  { transactions := [], mempool_is_total_set := false, last_active_index := some 0,
    base_tip := some ⟨1, 1⟩, invalidate := none, new_tip := ⟨2, 2⟩ }

/-- An inputless transaction with one output of value 1: every prevout is
(vacuously) known to any graph, yet its fee would be negative. -/
def txBad : Tx := { txid := 5, input := [], output := [⟨1, 0⟩], weight := 4 }

/-- A whole transaction providing a prevout of value 9 at `(1, 0)`. -/
def txPrev : Tx := { txid := 1, input := [], output := [⟨9, 3⟩], weight := 4 }

/-- A transaction spending `(1, 0)` with outputs totalling 6. -/
def txSpend : Tx := { txid := 2, input := [⟨⟨1, 0⟩⟩], output := [⟨6, 4⟩], weight := 4 }

/-- A graph knowing `txPrev` as a whole transaction. -/
def g6 : Tg.TxGraph := ⟨[(1, Tg.TxNode.whole txPrev)], []⟩

/-- The update sequence of the `checkpoint_limit_is_respected` test: update
`i` has tip `(i, i)` and confirms txid `100 + i` at height `i`. -/
def c5u (i : Nat) : Sc.UpdateS :=
  { lastValid := if i = 0 then none else some ⟨i - 1, i - 1⟩,
    invalidate := none, newTip := ⟨i, i⟩, txids := [(100 + i, Sc.TxHeight.confirmed i)] }

/-- An empty sparse chain with `checkpoint_limit = 5`. -/
def c5init : Sc.SparseChain := ⟨[], [], some 5⟩

/-- Ten successive updates against `c5init` (the test scenario). -/
def c5run : Except Sc.StaleReason Sc.SparseChain :=
  (List.range 10).foldlM (fun s i => Sc.applyUpdateS s (c5u i)) c5init

/-- Chain with checkpoints `(0,0)` and `(1,1)` (from `check_last_valid_rules`). -/
def s3 : Sc.SparseChain := ⟨[(0, 0), (1, 1)], [], none⟩

/-- Chain of the `confirm_tx` test after both confirmations: checkpoints
`(1,1)`, `(2,2)`; txid 10 confirmed at 0, txid 20 confirmed at 2. -/
def s2 : Sc.SparseChain :=
  ⟨[(1, 1), (2, 2)], [(10, Sc.TxHeight.confirmed 0), (20, Sc.TxHeight.confirmed 2)], none⟩

/-- The `confirm_tx` update trying to move txid 10 back to the mempool. -/
def u2 : Sc.UpdateS :=
  { lastValid := some ⟨2, 2⟩, invalidate := none, newTip := ⟨2, 2⟩,
    txids := [(10, Sc.TxHeight.unconfirmed)] }

/-- Current derivation indices for the `Kt` witness. -/
def idx4 : List (Nat × Nat) := [(0, 5)]

/-- A scan's `last_active_indexes` for the `Kt` witness: keychain 0 advances
past 5, keychain 1 is new. -/
def la4 : List (Nat × Nat) := [(0, 7), (1, 2)]

end Ex

/-! ## General lemmas about the container embeddings -/

theorem alookup_ainsert {κ α : Type} [DecidableEq κ] (l : List (κ × α)) (k : κ) (v : α) :
    alookup (ainsert l k v) k = some v := by
  induction l with
  | nil => simp [ainsert, alookup]
  | cons x l ih =>
    obtain ⟨k', v'⟩ := x
    by_cases hk : k' = k
    · simp [ainsert, alookup, hk]
    · simp [ainsert, alookup, hk, ih]

theorem ainsert_self {κ α : Type} [DecidableEq κ] {l : List (κ × α)} {k : κ} {v : α}
    (h : alookup l k = some v) : ainsert l k v = l := by
  induction l with
  | nil => simp [alookup] at h
  | cons x l ih =>
    obtain ⟨k', v'⟩ := x
    by_cases hk : k' = k
    · simp [alookup, hk] at h
      simp [ainsert, hk, h]
    · simp [alookup, hk] at h
      simp [ainsert, hk, ih h]

theorem mem_of_alookup_eq_some {κ α : Type} [DecidableEq κ] {l : List (κ × α)} {k : κ} {v : α}
    (h : alookup l k = some v) : (k, v) ∈ l := by
  induction l with
  | nil => simp [alookup] at h
  | cons x l ih =>
    obtain ⟨k', v'⟩ := x
    by_cases hk : k' = k
    · simp [alookup, hk] at h
      simp [hk, h]
    · simp [alookup, hk] at h
      exact List.mem_cons_of_mem _ (ih h)

theorem mem_of_mem_aremove {κ α : Type} [DecidableEq κ] {l : List (κ × α)} {k : κ}
    {p : κ × α} (h : p ∈ aremove l k) : p ∈ l := by
  induction l with
  | nil => simp [aremove] at h
  | cons x l ih =>
    obtain ⟨k', v'⟩ := x
    by_cases hk : k' = k
    · simp [aremove, hk] at h
      exact List.mem_cons_of_mem _ (ih h)
    · simp only [aremove, hk, if_neg, ite_false] at h
      rcases List.mem_cons.mp h with h | h
      · exact h ▸ List.mem_cons_self _ _
      · exact List.mem_cons_of_mem _ (ih h)

theorem not_mem_aremove_key {κ α : Type} [DecidableEq κ] (l : List (κ × α)) (k : κ) (v : α) :
    (k, v) ∉ aremove l k := by
  induction l with
  | nil => simp [aremove]
  | cons x l ih =>
    obtain ⟨k', v'⟩ := x
    by_cases hk : k' = k
    · simp only [aremove, hk, ite_true]
      exact ih
    · simp only [aremove, hk, ite_false]
      intro h
      rcases List.mem_cons.mp h with h | h
      · exact hk (by injection h with h1 h2; exact h1.symm)
      · exact ih h

theorem mem_of_mem_sremove {α : Type} [DecidableEq α] {l : List α} {a x : α}
    (h : x ∈ sremove l a) : x ∈ l := by
  induction l with
  | nil => simp [sremove] at h
  | cons y l ih =>
    by_cases hy : y = a
    · simp [sremove, hy] at h
      exact List.mem_cons_of_mem _ (ih h)
    · simp only [sremove, hy, ite_false] at h
      rcases List.mem_cons.mp h with h | h
      · exact h ▸ List.mem_cons_self _ _
      · exact List.mem_cons_of_mem _ (ih h)

theorem findSome?_eq_none_iff {α β : Type} (f : α → Option β) (l : List α) :
    l.findSome? f = none ↔ ∀ x ∈ l, f x = none := by
  induction l with
  | nil => simp [List.findSome?]
  | cons y l ih =>
    rw [List.findSome?_cons]
    cases hy : f y with
    | some b => simp [hy]
    | none => simpa [hy] using ih

theorem exists_of_findSome?_eq_some {α β : Type} {f : α → Option β} {l : List α} {b : β}
    (h : l.findSome? f = some b) : ∃ x ∈ l, f x = some b := by
  induction l with
  | nil => simp [List.findSome?] at h
  | cons y l ih =>
    rw [List.findSome?_cons] at h
    cases hy : f y with
    | some c =>
      rw [hy] at h
      simp only [Option.some.injEq] at h
      exact ⟨y, List.mem_cons_self _ _, by rw [hy, h]⟩
    | none =>
      rw [hy] at h
      simp only at h
      obtain ⟨x, hx, hfx⟩ := ih h
      exact ⟨x, List.mem_cons_of_mem _ hx, hfx⟩

theorem alookup_ainsert_ne {κ α : Type} [DecidableEq κ] (l : List (κ × α)) (k k' : κ) (v : α)
    (h : k ≠ k') : alookup (ainsert l k v) k' = alookup l k' := by
  induction l with
  | nil => simp [ainsert, alookup, h]
  | cons x l ih =>
    obtain ⟨k0, v0⟩ := x
    by_cases hk : k0 = k
    · subst hk
      simp [ainsert, alookup, h]
    · simp [ainsert, alookup, hk, ih]

/-! ## TxGraph lemmas (claims C6 and C7) -/

theorem spendsFold_txs (txid : Nat) (l : List TxIn) (g : Tg.TxGraph) :
    (l.foldl
      (fun (g : Tg.TxGraph) txin =>
        if txin.previous_output.is_null then g
        else
          let entry := (alookup g.spends txin.previous_output).getD []
          { g with spends := ainsert g.spends txin.previous_output (sinsert entry txid) })
      g).txs = g.txs := by
  induction l generalizing g with
  | nil => rfl
  | cons x l ih =>
    rw [List.foldl_cons, ih]
    by_cases hnull : x.previous_output.is_null <;> simp [hnull]

theorem insert_tx_txs (g : Tg.TxGraph) (tx : Tx) :
    (Tg.insert_tx g tx).2.txs = ainsert g.txs tx.txid (Tg.TxNode.whole tx) := by
  cases h : alookup g.txs tx.txid with
  | none =>
    have : Tg.insert_tx g tx = (true, tx.input.foldl
        (fun (g : Tg.TxGraph) txin =>
          if txin.previous_output.is_null then g
          else
            let entry := (alookup g.spends txin.previous_output).getD []
            { g with spends := ainsert g.spends txin.previous_output (sinsert entry tx.txid) })
        { g with txs := ainsert g.txs tx.txid (Tg.TxNode.whole tx) }) := by
      simp only [Tg.insert_tx, h]
    rw [this, spendsFold_txs]
  | some node =>
    cases node with
    | whole tx' =>
      have : Tg.insert_tx g tx =
          (false, { g with txs := ainsert g.txs tx.txid (Tg.TxNode.whole tx) }) := by
        simp only [Tg.insert_tx, h]
      rw [this]
    | parts ps =>
      have : Tg.insert_tx g tx = (true, tx.input.foldl
          (fun (g : Tg.TxGraph) txin =>
            if txin.previous_output.is_null then g
            else
              let entry := (alookup g.spends txin.previous_output).getD []
              { g with spends := ainsert g.spends txin.previous_output (sinsert entry tx.txid) })
          { g with txs := ainsert g.txs tx.txid (Tg.TxNode.whole tx) }) := by
        simp only [Tg.insert_tx, h]
      rw [this, spendsFold_txs]

/-- C7: inserting a transaction the graph already holds as a whole node
leaves the graph unchanged and returns `false`; consequently two consecutive
`insert_tx` of the same transaction equal a single one. -/
theorem insert_tx_idempotent (g : Tg.TxGraph) (tx : Tx) :
    (alookup g.txs tx.txid = some (Tg.TxNode.whole tx) → Tg.insert_tx g tx = (false, g)) ∧
    Tg.insert_tx (Tg.insert_tx g tx).2 tx = (false, (Tg.insert_tx g tx).2) := by
  have key : ∀ (g' : Tg.TxGraph), alookup g'.txs tx.txid = some (Tg.TxNode.whole tx) →
      Tg.insert_tx g' tx = (false, g') := by
    intro g' h
    have step : Tg.insert_tx g' tx =
        (false, { g' with txs := ainsert g'.txs tx.txid (Tg.TxNode.whole tx) }) := by
      simp only [Tg.insert_tx, h]
    rw [step, ainsert_self h]
  refine ⟨key g, key _ ?_⟩
  rw [insert_tx_txs]
  exact alookup_ainsert _ _ _

/-- Witness for `insert_tx_idempotent` at a concrete graph that already
holds the transaction. -/
theorem insert_tx_idempotent_witness :
    alookup Ex.g6.txs Ex.txPrev.txid = some (Tg.TxNode.whole Ex.txPrev) ∧
    Tg.insert_tx Ex.g6 Ex.txPrev = (false, Ex.g6) :=
  ⟨by decide, (insert_tx_idempotent Ex.g6 Ex.txPrev).1 (by decide)⟩

theorem sumPrevouts_eq_some {g : Tg.TxGraph} {l : List TxIn}
    (h : ∀ txin ∈ l, (Tg.txout g txin.previous_output).isSome) :
    Tg.sumPrevouts g l =
      some ((l.map (fun txin => ((Tg.txout g txin.previous_output).getD ⟨0, 0⟩).value)).sum) := by
  induction l with
  | nil => rfl
  | cons x l ih =>
    have hx := h x (List.mem_cons_self _ _)
    obtain ⟨t, ht⟩ := Option.isSome_iff_exists.mp hx
    have hrest := ih (fun txin hm => h txin (List.mem_cons_of_mem _ hm))
    simp [Tg.sumPrevouts, ht, hrest]

theorem sumPrevouts_eq_none {g : Tg.TxGraph} {l : List TxIn}
    (h : ∃ txin ∈ l, Tg.txout g txin.previous_output = none) :
    Tg.sumPrevouts g l = none := by
  induction l with
  | nil => simp at h
  | cons x l ih =>
    obtain ⟨txin, hm, hnone⟩ := h
    rcases List.mem_cons.mp hm with rfl | hm
    · simp [Tg.sumPrevouts, hnone]
    · cases hx : Tg.txout g x.previous_output with
      | none => simp [Tg.sumPrevouts, hx]
      | some t => simp [Tg.sumPrevouts, hx, ih ⟨txin, hm, hnone⟩]

/-- C6 counterexample: for the inputless transaction `Ex.txBad` every
prevout is (vacuously) known to the empty graph, yet `calculate_fee` does
not return `ok` of the prevout sum minus the output sum — the source panics
on the `checked_sub` (`FeeResult.panicked`). -/
theorem calculate_fee_counterexample :
    (∀ txin ∈ Ex.txBad.input, (Tg.txout Tg.emptyGraph txin.previous_output).isSome) ∧
    Tg.calculate_fee Tg.emptyGraph Ex.txBad ≠
      Tg.FeeResult.ok (Tg.prevoutSum Tg.emptyGraph Ex.txBad - Tg.outSum Ex.txBad) ∧
    Tg.calculate_fee Tg.emptyGraph Ex.txBad = Tg.FeeResult.panicked := by
  refine ⟨by decide, by decide, by decide⟩

/-- C6 (amended): when every prevout of `tx` is known to `g`,
`calculate_fee` returns the prevout sum minus the output sum provided that
difference is non-negative, and panics otherwise; when some prevout is
unknown it returns `missing` (the Rust `None`). -/
theorem calculate_fee_spec (g : Tg.TxGraph) (tx : Tx) :
    ((∀ txin ∈ tx.input, (Tg.txout g txin.previous_output).isSome) →
      (Tg.outSum tx ≤ Tg.prevoutSum g tx →
        Tg.calculate_fee g tx = Tg.FeeResult.ok (Tg.prevoutSum g tx - Tg.outSum tx)) ∧
      (Tg.prevoutSum g tx < Tg.outSum tx →
        Tg.calculate_fee g tx = Tg.FeeResult.panicked)) ∧
    ((∃ txin ∈ tx.input, Tg.txout g txin.previous_output = none) →
      Tg.calculate_fee g tx = Tg.FeeResult.missing) := by
  constructor
  · intro hall
    have hsum := sumPrevouts_eq_some hall
    constructor
    · intro hle
      simp only [Tg.outSum, Tg.prevoutSum] at hle
      simp only [Tg.calculate_fee, hsum, Tg.prevoutSum, Tg.outSum]
      rw [if_pos hle]
    · intro hlt
      simp only [Tg.outSum, Tg.prevoutSum] at hlt
      simp only [Tg.calculate_fee, hsum]
      rw [if_neg (Nat.not_le.mpr hlt)]
  · intro hex
    simp [Tg.calculate_fee, sumPrevouts_eq_none hex]

/-- Witness for `calculate_fee_spec` at a graph knowing the single prevout. -/
theorem calculate_fee_spec_witness :
    (∀ txin ∈ Ex.txSpend.input, (Tg.txout Ex.g6 txin.previous_output).isSome) ∧
    Tg.calculate_fee Ex.g6 Ex.txSpend =
      Tg.FeeResult.ok (Tg.prevoutSum Ex.g6 Ex.txSpend - Tg.outSum Ex.txSpend) :=
  ⟨by decide, ((calculate_fee_spec Ex.g6 Ex.txSpend).1 (by decide)).1 (by decide)⟩

/-! ## SparseChain lemmas (claims C2, C3, C5) -/

/-- C3: without an invalidation, an update is accepted only when its
`last_valid` names the local tip (or is `None` on an empty chain); on a
mismatch it is rejected as `UnexpectedLastValid` carrying the supplied
`last_valid` as `got` and the local tip as `expected`. -/
theorem applyUpdate_lastValid_rule (s : Sc.SparseChain) (u : Sc.UpdateS)
    (hinv : u.invalidate = none) :
    ((∃ s', Sc.applyUpdateS s u = Except.ok s') → u.lastValid = Sc.latestCheckpoint s) ∧
    (u.lastValid ≠ Sc.latestCheckpoint s →
      Sc.applyUpdateS s u =
        Except.error (Sc.StaleReason.unexpectedLastValid u.lastValid (Sc.latestCheckpoint s))) := by
  constructor
  · rintro ⟨s', hs⟩
    by_contra hne
    have hchk : Sc.checkLastValid s u =
        some (Sc.StaleReason.unexpectedLastValid u.lastValid (Sc.latestCheckpoint s)) := by
      simp [Sc.checkLastValid, hinv, hne]
    simp [Sc.applyUpdateS, Sc.validate, hchk] at hs
  · intro hne
    have hchk : Sc.checkLastValid s u =
        some (Sc.StaleReason.unexpectedLastValid u.lastValid (Sc.latestCheckpoint s)) := by
      simp [Sc.checkLastValid, hinv, hne]
    simp [Sc.applyUpdateS, Sc.validate, hchk]

/-- Witness for `applyUpdate_lastValid_rule`: the third step of the
`check_last_valid_rules` test — chain at tip `(1,1)`, update with
`last_valid = None`. -/
theorem applyUpdate_lastValid_rule_witness :
    (Sc.UpdateS.new none ⟨2, 2⟩).invalidate = none ∧
    Sc.applyUpdateS Ex.s3 (Sc.UpdateS.new none ⟨2, 2⟩) =
      Except.error (Sc.StaleReason.unexpectedLastValid
        (Sc.UpdateS.new none ⟨2, 2⟩).lastValid (Sc.latestCheckpoint Ex.s3)) :=
  ⟨rfl, (applyUpdate_lastValid_rule Ex.s3 (Sc.UpdateS.new none ⟨2, 2⟩) rfl).2 (by decide)⟩

/-! ## KeychainTracker lemmas (claim C4) -/

theorem apply_changeset_indices_cons (idx : List (Nat × Nat)) (d : Nat × Nat)
    (ds : List (Nat × Nat)) :
    Kt.apply_changeset_indices idx (d :: ds) =
      Kt.apply_changeset_indices
        (match alookup idx d.1 with
         | some existing => ainsert idx d.1 (Nat.max existing d.2)
         | none => ainsert idx d.1 d.2) ds := rfl

theorem apply_changeset_indices_mono (ds : List (Nat × Nat)) :
    ∀ (idx : List (Nat × Nat)) (k e : Nat), alookup idx k = some e →
      ∃ f, alookup (Kt.apply_changeset_indices idx ds) k = some f ∧ e ≤ f := by
  induction ds with
  | nil => exact fun idx k e h => ⟨e, h, Nat.le_refl e⟩
  | cons d ds ih =>
    intro idx k e h
    obtain ⟨k0, i0⟩ := d
    rw [apply_changeset_indices_cons]
    by_cases hk : k0 = k
    · subst hk
      rw [h]
      obtain ⟨f, hf, hef⟩ := ih _ _ _ (alookup_ainsert idx k0 (Nat.max e i0))
      exact ⟨f, hf, Nat.le_trans (Nat.le_max_left _ _) hef⟩
    · have hne : alookup
          (match alookup idx k0 with
           | some existing => ainsert idx k0 (Nat.max existing i0)
           | none => ainsert idx k0 i0) k = some e := by
        cases hl : alookup idx k0 <;>
          simpa [alookup_ainsert_ne _ _ _ _ hk] using h
      exact ih _ _ _ hne

theorem apply_changeset_indices_of_mem (ds : List (Nat × Nat)) :
    ∀ (idx : List (Nat × Nat)) (k i : Nat), (k, i) ∈ ds →
      ∃ f, alookup (Kt.apply_changeset_indices idx ds) k = some f ∧ i ≤ f := by
  induction ds with
  | nil => intro idx k i h; simp at h
  | cons d ds ih =>
    intro idx k i h
    obtain ⟨k0, i0⟩ := d
    rw [apply_changeset_indices_cons]
    rcases List.mem_cons.mp h with heq | hmem
    · injection heq with h1 h2
      subst h1; subst h2
      cases hl : alookup idx k with
      | some ex =>
        obtain ⟨f, hf, hef⟩ :=
          apply_changeset_indices_mono ds _ _ _ (alookup_ainsert idx k (Nat.max ex i))
        exact ⟨f, hf, Nat.le_trans (Nat.le_max_right _ _) hef⟩
      | none =>
        exact apply_changeset_indices_mono ds _ _ _ (alookup_ainsert idx k i)
    · exact ih _ _ _ hmem

/-- C4: `determine_changeset` keeps exactly the scan entries whose index
strictly exceeds the tracker's current derivation index (or whose keychain
has none); applying any changeset never decreases a stored derivation
index; and replaying a scan against the state obtained by applying its own
changeset contributes no derivation-index change. -/
theorem determine_changeset_indices_spec (idx la : List (Nat × Nat)) :
    (∀ k i, (k, i) ∈ Kt.determine_changeset_indices idx la ↔
      ((k, i) ∈ la ∧ ∀ e, Kt.derivation_index idx k = some e → e < i)) ∧
    (∀ ds k e, alookup idx k = some e →
      ∃ f, alookup (Kt.apply_changeset_indices idx ds) k = some f ∧ e ≤ f) ∧
    Kt.determine_changeset_indices
      (Kt.apply_changeset_indices idx (Kt.determine_changeset_indices idx la)) la = [] := by
  refine ⟨?_, fun ds k e h => apply_changeset_indices_mono ds idx k e h, ?_⟩
  · intro k i
    simp only [Kt.determine_changeset_indices, List.mem_filter]
    constructor
    · rintro ⟨hmem, hp⟩
      refine ⟨hmem, fun e he => ?_⟩
      rw [he] at hp
      simpa using hp
    · rintro ⟨hmem, hp⟩
      refine ⟨hmem, ?_⟩
      cases he : Kt.derivation_index idx k with
      | none => simp [he]
      | some e => simpa [he] using hp e he
  · simp only [Kt.determine_changeset_indices]
    rw [List.filter_eq_nil_iff]
    rintro ⟨k, i⟩ hmem
    have hbound : ∃ f, alookup (Kt.apply_changeset_indices idx
        (Kt.determine_changeset_indices idx la)) k = some f ∧ i ≤ f := by
      cases hl : alookup idx k with
      | some e0 =>
        by_cases hlt : e0 < i
        · have hin : (k, i) ∈ Kt.determine_changeset_indices idx la := by
            simp [Kt.determine_changeset_indices, List.mem_filter, hmem,
              Kt.derivation_index, hl, hlt]
          exact apply_changeset_indices_of_mem _ _ _ _ hin
        · obtain ⟨f, hf, hef⟩ := apply_changeset_indices_mono
            (Kt.determine_changeset_indices idx la) idx k e0 hl
          exact ⟨f, hf, Nat.le_trans (Nat.le_of_not_lt hlt) hef⟩
      | none =>
        have hin : (k, i) ∈ Kt.determine_changeset_indices idx la := by
          simp [Kt.determine_changeset_indices, List.mem_filter, hmem,
            Kt.derivation_index, hl]
        exact apply_changeset_indices_of_mem _ _ _ _ hin
    obtain ⟨f, hf, hif⟩ := hbound
    simp only [Kt.determine_changeset_indices, Kt.derivation_index] at hf
    simp only [Kt.derivation_index]
    rw [hf]
    simp [Nat.not_lt.mpr hif]

/-- Witness for `determine_changeset_indices_spec`: the current index 5 for
keychain 0 does not decrease when the changeset derived from
`last_active_indexes = [(0,7),(1,2)]` is applied. -/
theorem determine_changeset_indices_spec_witness :
    alookup Ex.idx4 0 = some 5 ∧
    ∃ f, alookup (Kt.apply_changeset_indices Ex.idx4
        (Kt.determine_changeset_indices Ex.idx4 Ex.la4)) 0 = some f ∧ 5 ≤ f :=
  ⟨by decide, (determine_changeset_indices_spec Ex.idx4 Ex.la4).2.1
    (Kt.determine_changeset_indices Ex.idx4 Ex.la4) 0 5 (by decide)⟩

theorem txHeights_entry {u : Sc.UpdateS} (h5 : Sc.checkTxHeights u = none) :
    ∀ q ∈ u.txids, ∀ h, q.2 = Sc.TxHeight.confirmed h → h ≤ u.newTip.height := by
  intro q hq h hconf
  have hnone := (findSome?_eq_none_iff _ _).mp h5 q hq
  obtain ⟨t, pos⟩ := q
  simp only at hconf
  subst hconf
  simp only [Sc.checkTxHeights] at hnone
  by_cases hlt : u.newTip.height < h
  · simp [hlt] at hnone
  · exact Nat.not_lt.mp hlt

theorem moveEntry_none_iff (s : Sc.SparseChain) (u : Sc.UpdateS) (q : Nat × Sc.TxHeight)
    (htip : ∀ h, q.2 = Sc.TxHeight.confirmed h → h ≤ u.newTip.height) :
    Sc.moveEntry s u q = none ↔ Sc.moveOK s u q.1 q.2 = true := by
  obtain ⟨t, p⟩ := q
  simp only [Sc.moveEntry, Sc.moveOK]
  cases hl : alookup s.txidToPos t with
  | none => simp
  | some old =>
    by_cases hpe : p = old
    · simp [hpe]
    · simp only [if_neg hpe]
      cases old with
      | unconfirmed =>
        cases p with
        | confirmed h =>
          have hh := htip h rfl
          simp [hh]
        | unconfirmed => exact absurd rfl hpe
      | confirmed h =>
        cases hinv : u.invalidate with
        | some inv =>
          by_cases hcov : inv.height ≤ h
          · simp [hcov]
          · simp [hcov]
        | none => simp

theorem moveEntry_some {s : Sc.SparseChain} {u : Sc.UpdateS} {q : Nat × Sc.TxHeight}
    {e : Sc.StaleReason} (h : Sc.moveEntry s u q = some e) :
    ∃ old, e = Sc.StaleReason.txUnexpectedlyMoved q.1 old q.2 ∧
      alookup s.txidToPos q.1 = some old ∧ Sc.moveOK s u q.1 q.2 = false := by
  obtain ⟨t, p⟩ := q
  cases hl : alookup s.txidToPos t with
  | none => simp [Sc.moveEntry, hl] at h
  | some old =>
    simp only [Sc.moveEntry, hl] at h
    by_cases hpe : p = old
    · simp [hpe] at h
    · rw [if_neg hpe] at h
      cases old with
      | unconfirmed => simp at h
      | confirmed hh =>
        cases hinv : u.invalidate with
        | some inv =>
          simp only [hinv] at h
          by_cases hcov : inv.height ≤ hh
          · simp [hcov] at h
          · rw [if_neg hcov] at h
            simp only [Option.some.injEq] at h
            exact ⟨Sc.TxHeight.confirmed hh, h.symm, rfl, by
              simp [Sc.moveOK, hl, hpe, hinv, hcov]⟩
        | none =>
          simp only [hinv] at h
          simp only [Option.some.injEq] at h
          exact ⟨Sc.TxHeight.confirmed hh, h.symm, rfl, by
            simp [Sc.moveOK, hl, hpe, hinv]⟩

theorem validate_eq_checkTxMove {s : Sc.SparseChain} {u : Sc.UpdateS}
    (h1 : Sc.checkLastValid s u = none) (h2 : Sc.checkNewTipVsLastValid u = none)
    (h3 : Sc.checkNewTipVsInvalidate u = none) (h5 : Sc.checkTxHeights u = none) :
    Sc.validate s u = Sc.checkTxMove s u := by
  simp [Sc.validate, h1, h2, h3, h5]

/-- C2: under the earlier validation rules (1–5), an update touching a
locally known txid is accepted exactly when every entry is a legal movement
(`moveOK`: unchanged position, confirmed position inside the invalidation
scope, or promotion of an unconfirmed txid to a height under the new tip —
in particular a height below `last_valid`); an illegal movement is rejected
as `TxUnexpectedlyMoved` whose fields are the offending entry's txid, its
local position (`from`) and its update position (`to`). -/
theorem applyUpdate_txid_movement (s : Sc.SparseChain) (u : Sc.UpdateS)
    (txid : Nat) (pOld pNew : Sc.TxHeight)
    (hknown : alookup s.txidToPos txid = some pOld)
    (hmem : (txid, pNew) ∈ u.txids)
    (h1 : Sc.checkLastValid s u = none) (h2 : Sc.checkNewTipVsLastValid u = none)
    (h3 : Sc.checkNewTipVsInvalidate u = none) (h5 : Sc.checkTxHeights u = none) :
    ((∃ s', Sc.applyUpdateS s u = Except.ok s') ↔
      ∀ q ∈ u.txids, Sc.moveOK s u q.1 q.2 = true) ∧
    (Sc.moveOK s u txid pNew = false →
      ∃ t0 old0 p0, Sc.applyUpdateS s u =
          Except.error (Sc.StaleReason.txUnexpectedlyMoved t0 old0 p0) ∧
        (t0, p0) ∈ u.txids ∧ alookup s.txidToPos t0 = some old0 ∧
        Sc.moveOK s u t0 p0 = false) ∧
    (u.txids = [(txid, pNew)] → Sc.moveOK s u txid pNew = false →
      Sc.applyUpdateS s u =
        Except.error (Sc.StaleReason.txUnexpectedlyMoved txid pOld pNew)) := by
  have hval := validate_eq_checkTxMove h1 h2 h3 h5
  have happErr : ∀ e, Sc.checkTxMove s u = some e →
      Sc.applyUpdateS s u = Except.error e := by
    intro e he
    simp [Sc.applyUpdateS, hval, he]
  have happOk : Sc.checkTxMove s u = none →
      Sc.applyUpdateS s u = Except.ok (Sc.commit s u) := by
    intro he
    simp [Sc.applyUpdateS, hval, he]
  refine ⟨?_, ?_, ?_⟩
  · constructor
    · rintro ⟨s', hs⟩ q hq
      cases hc : Sc.checkTxMove s u with
      | some e => rw [happErr e hc] at hs; cases hs
      | none =>
        have hnone := (findSome?_eq_none_iff _ _).mp hc q hq
        exact (moveEntry_none_iff s u q (txHeights_entry h5 q hq)).mp hnone
    · intro hall
      have hc : Sc.checkTxMove s u = none := by
        rw [Sc.checkTxMove, findSome?_eq_none_iff]
        intro q hq
        exact (moveEntry_none_iff s u q (txHeights_entry h5 q hq)).mpr (hall q hq)
      exact ⟨Sc.commit s u, happOk hc⟩
  · intro hfalse
    cases hc : Sc.checkTxMove s u with
    | none =>
      have hnone := (findSome?_eq_none_iff _ _).mp hc (txid, pNew) hmem
      have hok := (moveEntry_none_iff s u (txid, pNew)
        (txHeights_entry h5 (txid, pNew) hmem)).mp hnone
      rw [hok] at hfalse
      cases hfalse
    | some e =>
      obtain ⟨q, hq, hqe⟩ := exists_of_findSome?_eq_some hc
      obtain ⟨old0, hshape, hlook, hbad⟩ := moveEntry_some hqe
      exact ⟨q.1, old0, q.2, hshape ▸ happErr e hc, hq, hlook, hbad⟩
  · intro hsingle hfalse
    cases he : Sc.moveEntry s u (txid, pNew) with
    | none =>
      have hok := (moveEntry_none_iff s u (txid, pNew)
        (txHeights_entry h5 (txid, pNew) hmem)).mp he
      rw [hok] at hfalse
      cases hfalse
    | some e =>
      obtain ⟨old0, hshape, hlook, _⟩ := moveEntry_some he
      have hold : old0 = pOld := by
        rw [hknown] at hlook
        injection hlook with hv
        exact hv.symm
      have hc : Sc.checkTxMove s u = some e := by
        rw [Sc.checkTxMove, hsingle]
        simp [List.findSome?_cons, he]
      have := happErr e hc
      rw [hshape, hold] at this
      exact this

/-- Witness for `applyUpdate_txid_movement`: the `confirm_tx` test's illegal
move of txid 10 from `Confirmed(0)` back to the mempool. -/
theorem applyUpdate_txid_movement_witness :
    alookup Ex.s2.txidToPos 10 = some (Sc.TxHeight.confirmed 0) ∧
    Sc.applyUpdateS Ex.s2 Ex.u2 =
      Except.error (Sc.StaleReason.txUnexpectedlyMoved 10
        (Sc.TxHeight.confirmed 0) Sc.TxHeight.unconfirmed) :=
  ⟨by decide,
    (applyUpdate_txid_movement Ex.s2 Ex.u2 10 (Sc.TxHeight.confirmed 0)
      Sc.TxHeight.unconfirmed (by decide) (by decide) (by decide) (by decide)
      (by decide) (by decide)).2.2 (by decide) (by decide)⟩

theorem eraseMinH_sublist (l : List (Nat × Nat)) : List.Sublist (Sc.eraseMinH l) l := by
  induction l with
  | nil => exact List.Sublist.refl _
  | cons a xs ih =>
    by_cases hall : xs.all (fun y => a.1 ≤ y.1)
    · simp only [Sc.eraseMinH, hall, ite_true]
      exact (List.Sublist.refl xs).cons a
    · simp only [Sc.eraseMinH, hall, ite_false]
      exact ih.cons₂ a

theorem eraseMinH_length {l : List (Nat × Nat)} (h : l ≠ []) :
    (Sc.eraseMinH l).length = l.length - 1 := by
  induction l with
  | nil => exact absurd rfl h
  | cons a xs ih =>
    by_cases hall : xs.all (fun y => a.1 ≤ y.1)
    · simp [Sc.eraseMinH, hall]
    · have hxs : xs ≠ [] := by
        intro he
        subst he
        simp at hall
      have hpos : 0 < xs.length := List.length_pos.mpr hxs
      have herase : Sc.eraseMinH (a :: xs) = a :: Sc.eraseMinH xs := by
        simp [Sc.eraseMinH, hall]
      rw [herase, List.length_cons, List.length_cons, ih hxs]
      omega

theorem eraseMinH_min {l : List (Nat × Nat)} {x : Nat × Nat} (hx : x ∈ l)
    (hnx : x ∉ Sc.eraseMinH l) : ∀ y ∈ l, x.1 ≤ y.1 := by
  induction l with
  | nil => cases hx
  | cons a xs ih =>
    by_cases hall : xs.all (fun y => a.1 ≤ y.1)
    · have herase : Sc.eraseMinH (a :: xs) = xs := by
        simp [Sc.eraseMinH, hall]
      rw [herase] at hnx
      rcases List.mem_cons.mp hx with rfl | hxs
      · intro y hy
        rcases List.mem_cons.mp hy with rfl | hys
        · exact Nat.le_refl _
        · simpa using List.all_eq_true.mp hall y hys
      · exact absurd hxs hnx
    · have herase : Sc.eraseMinH (a :: xs) = a :: Sc.eraseMinH xs := by
        simp [Sc.eraseMinH, hall]
      rw [herase] at hnx
      have hxa : x ≠ a := fun he => hnx (he ▸ List.mem_cons_self a _)
      have hxs : x ∈ xs := (List.mem_cons.mp hx).resolve_left hxa
      have hnxs : x ∉ Sc.eraseMinH xs := fun hmem => hnx (List.mem_cons_of_mem _ hmem)
      have hbound := ih hxs hnxs
      intro y hy
      rcases List.mem_cons.mp hy with rfl | hys
      · have hz : ∃ z ∈ xs, ¬ y.1 ≤ z.1 := by
          simpa using hall
        obtain ⟨z, hzmem, hza⟩ := hz
        exact Nat.le_of_lt (Nat.lt_of_le_of_lt (hbound z hzmem) (Nat.lt_of_not_le hza))
      · exact hbound y hys

theorem dropOldest_sublist (k : Nat) : ∀ l : List (Nat × Nat),
    List.Sublist (Sc.dropOldest k l) l := by
  induction k with
  | zero => exact fun l => List.Sublist.refl l
  | succ k ih =>
    intro l
    exact (ih (Sc.eraseMinH l)).trans (eraseMinH_sublist l)

theorem dropOldest_length (k : Nat) : ∀ l : List (Nat × Nat),
    (Sc.dropOldest k l).length = l.length - k := by
  induction k with
  | zero => simp [Sc.dropOldest]
  | succ k ih =>
    intro l
    cases l with
    | nil =>
      have : Sc.eraseMinH [] = [] := rfl
      simp [Sc.dropOldest, this, ih]
    | cons a xs =>
      have hne : (a :: xs) ≠ [] := by simp
      have h1 := eraseMinH_length hne
      simp only [Sc.dropOldest, ih (Sc.eraseMinH (a :: xs)), h1]
      simp only [List.length_cons]
      omega

theorem dropOldest_oldest (k : Nat) : ∀ (l : List (Nat × Nat)) (x : Nat × Nat),
    x ∈ l → x ∉ Sc.dropOldest k l → ∀ y ∈ Sc.dropOldest k l, x.1 ≤ y.1 := by
  induction k with
  | zero => intro l x hx hnx; exact absurd hx hnx
  | succ k ih =>
    intro l x hx hnx y hy
    simp only [Sc.dropOldest] at hnx hy
    by_cases hmid : x ∈ Sc.eraseMinH l
    · exact ih (Sc.eraseMinH l) x hmid hnx y hy
    · have hmin := eraseMinH_min hx hmid
      have hyl : y ∈ l :=
        (eraseMinH_sublist l).subset ((dropOldest_sublist k (Sc.eraseMinH l)).subset hy)
      exact hmin y hyl

theorem commitCore_checkpointLimit (s : Sc.SparseChain) (u : Sc.UpdateS) :
    (Sc.commitCore s u).checkpointLimit = s.checkpointLimit := by
  cases hinv : u.invalidate <;> simp [Sc.commitCore, hinv]

/-- C5: a successful `apply_update` leaves the txid index exactly as the
commit built it (pruning touches headers only) and prunes the checkpoints
with `pruneCheckpoints`; when a limit `n` is set and the committed chain has
at least `n` checkpoints, exactly `n` remain, they are among the committed
ones, and every dropped checkpoint is no newer than every retained one; in
the `checkpoint_limit_is_respected` scenario (10 updates, each confirming
one txid, limit 5) the final chain indexes 10 confirmed txids under 5
checkpoints. -/
theorem checkpoint_limit_spec :
    (∀ (s : Sc.SparseChain) (u : Sc.UpdateS) (s' : Sc.SparseChain),
      Sc.applyUpdateS s u = Except.ok s' →
        s'.txidToPos = (Sc.commitCore s u).txidToPos ∧
        s'.checkpoints =
          Sc.pruneCheckpoints s.checkpointLimit (Sc.commitCore s u).checkpoints) ∧
    (∀ (n : Nat) (l : List (Nat × Nat)), n ≤ l.length →
      (Sc.pruneCheckpoints (some n) l).length = n) ∧
    (∀ (n : Nat) (l : List (Nat × Nat)),
      List.Sublist (Sc.pruneCheckpoints (some n) l) l) ∧
    (∀ (n : Nat) (l : List (Nat × Nat)) (x : Nat × Nat), x ∈ l →
      x ∉ Sc.pruneCheckpoints (some n) l →
      ∀ y ∈ Sc.pruneCheckpoints (some n) l, x.1 ≤ y.1) ∧
    (Ex.c5run.toOption.map Sc.countConfirmed = some 10 ∧
     Ex.c5run.toOption.map (fun s => s.checkpoints.length) = some 5) := by
  refine ⟨?_, ?_, ?_, ?_, by decide, by decide⟩
  · intro s u s' h
    cases hv : Sc.validate s u with
    | some e => simp [Sc.applyUpdateS, hv] at h
    | none =>
      have hcommit : s' = Sc.commit s u := by
        simp only [Sc.applyUpdateS, hv] at h
        injection h with h
        exact h.symm
      subst hcommit
      rw [Sc.commit, commitCore_checkpointLimit]
      exact ⟨rfl, rfl⟩
  · intro n l h
    simp only [Sc.pruneCheckpoints, dropOldest_length]
    omega
  · intro n l
    exact dropOldest_sublist _ l
  · intro n l x hx hnx y hy
    exact dropOldest_oldest _ l x hx hnx y hy

/-- Witness for `checkpoint_limit_spec`: pruning a six-checkpoint chain at
limit 5 retains exactly 5. -/
theorem checkpoint_limit_spec_witness :
    (5 : Nat) ≤ [(0, 0), (1, 1), (2, 2), (3, 3), (4, 4), (5, 5)].length ∧
    (Sc.pruneCheckpoints (some 5)
      [(0, 0), (1, 1), (2, 2), (3, 3), (4, 4), (5, 5)]).length = 5 :=
  ⟨by decide, checkpoint_limit_spec.2.1 5 _ (by decide)⟩

/-! ## DescriptorTracker theorems (claims C1, C8, C9, C10) -/

/-- C9 (code bug): the `unspent = txouts-keys minus spends-keys` invariant
holds after a purely-mempool `apply_update` that indexed one tracker-owned
outpoint, but the public `clear_mempool` breaks it: `remove_tx` deletes the
removed transaction's own outpoint from `txouts` and `script_txouts` yet
never removes it from `unspent`, leaving a dangling `unspent` entry (on
which `iter_unspent`'s `expect("txout must exist")` would panic). -/
theorem unspent_invariant_bug :
    (Dt.apply_update (Dt.mkTracker Ex.descr true) Ex.u9).1 = Dt.UpdateResult.Ok ∧
    Dt.invariantUnspent Ex.t9 ∧
    ¬ Dt.invariantUnspent (Dt.clear_mempool Ex.t9) := by
  refine ⟨rfl, by decide, by decide⟩

/-- C1 counterexample: an update carrying `last_active_index = 0` whose
`base_tip` does not match the (empty) local chain fails `Stale`, yet the
derived-script cache has been mutated — `derive_scripts` runs before the
staleness check. -/
theorem stale_mutates_script_cache :
    (Dt.apply_update (Dt.mkTracker Ex.descr true) Ex.u1).1 = Dt.UpdateResult.Stale ∧
    (Dt.apply_update (Dt.mkTracker Ex.descr true) Ex.u1).2.scripts ≠
      (Dt.mkTracker Ex.descr true).scripts := by
  exact ⟨rfl, by decide⟩

/-- C10 counterexample: after a successful `apply_update` whose
`new_tip.height` (3) lies below the tracker's tip (5), the empty checkpoint
inserted at height 3 is NOT removed — the source inspects the highest
checkpoint (here `(5, 55)`, non-empty) but would remove at
`new_tip.height` — so `checkpoint_at` reports an empty checkpoint at 3
while `latest_blockheight` becomes 3. -/
theorem empty_checkpoint_not_removed :
    (Dt.apply_update (Dt.mkTracker Ex.descr true) Ex.u10a).1 = Dt.UpdateResult.Ok ∧
    (Dt.apply_update Ex.t10 Ex.u10b).1 = Dt.UpdateResult.Ok ∧
    alookup (Dt.apply_update Ex.t10 Ex.u10b).2.checkpointed_txs
      Ex.u10b.new_tip.height = some (33, []) ∧
    Dt.checkpoint_at (Dt.apply_update Ex.t10 Ex.u10b).2 3 = some ⟨3, 33⟩ ∧
    (Dt.apply_update Ex.t10 Ex.u10b).2.latest_blockheight = some 3 := by
  refine ⟨rfl, rfl, by decide, by decide, rfl⟩

theorem deriveFold_fields (l : List Nat) : ∀ (t : Dt.Tracker),
    ((l.foldl
      (fun (t : Dt.Tracker) index =>
        let script := t.descriptor index
        { t with scripts := t.scripts ++ [script],
                 script_indexes := ainsert t.script_indexes script index,
                 unused := sinsert t.unused index })
      t).checkpointed_txs = t.checkpointed_txs ∧
     (l.foldl
      (fun (t : Dt.Tracker) index =>
        let script := t.descriptor index
        { t with scripts := t.scripts ++ [script],
                 script_indexes := ainsert t.script_indexes script index,
                 unused := sinsert t.unused index })
      t).txouts = t.txouts ∧
     (l.foldl
      (fun (t : Dt.Tracker) index =>
        let script := t.descriptor index
        { t with scripts := t.scripts ++ [script],
                 script_indexes := ainsert t.script_indexes script index,
                 unused := sinsert t.unused index })
      t).spends = t.spends ∧
     (l.foldl
      (fun (t : Dt.Tracker) index =>
        let script := t.descriptor index
        { t with scripts := t.scripts ++ [script],
                 script_indexes := ainsert t.script_indexes script index,
                 unused := sinsert t.unused index })
      t).unspent = t.unspent ∧
     (l.foldl
      (fun (t : Dt.Tracker) index =>
        let script := t.descriptor index
        { t with scripts := t.scripts ++ [script],
                 script_indexes := ainsert t.script_indexes script index,
                 unused := sinsert t.unused index })
      t).script_txouts = t.script_txouts ∧
     (l.foldl
      (fun (t : Dt.Tracker) index =>
        let script := t.descriptor index
        { t with scripts := t.scripts ++ [script],
                 script_indexes := ainsert t.script_indexes script index,
                 unused := sinsert t.unused index })
      t).txs = t.txs ∧
     (l.foldl
      (fun (t : Dt.Tracker) index =>
        let script := t.descriptor index
        { t with scripts := t.scripts ++ [script],
                 script_indexes := ainsert t.script_indexes script index,
                 unused := sinsert t.unused index })
      t).mempool = t.mempool ∧
     (l.foldl
      (fun (t : Dt.Tracker) index =>
        let script := t.descriptor index
        { t with scripts := t.scripts ++ [script],
                 script_indexes := ainsert t.script_indexes script index,
                 unused := sinsert t.unused index })
      t).latest_blockheight = t.latest_blockheight) := by
  induction l with
  | nil => exact fun t => ⟨rfl, rfl, rfl, rfl, rfl, rfl, rfl, rfl⟩
  | cons x l ih =>
    intro t
    simp only [List.foldl_cons]
    exact ih _

theorem derive_scripts_fields (t : Dt.Tracker) (n : Nat) :
    (Dt.derive_scripts t n).checkpointed_txs = t.checkpointed_txs ∧
    (Dt.derive_scripts t n).txouts = t.txouts ∧
    (Dt.derive_scripts t n).spends = t.spends ∧
    (Dt.derive_scripts t n).unspent = t.unspent ∧
    (Dt.derive_scripts t n).script_txouts = t.script_txouts ∧
    (Dt.derive_scripts t n).txs = t.txs ∧
    (Dt.derive_scripts t n).mempool = t.mempool ∧
    (Dt.derive_scripts t n).latest_blockheight = t.latest_blockheight :=
  deriveFold_fields _ t

theorem consistencyFailure_shape (t : Dt.Tracker) (u : Dt.Update) (e : Dt.UpdateResult)
    (h : Dt.consistencyFailure t u = some e) :
    ∃ a b c, e = Dt.UpdateResult.Inconsistent a b c := by
  obtain ⟨q, hq, hqe⟩ := exists_of_findSome?_eq_some h
  obtain ⟨pv, tx, conf⟩ := q
  simp only [Dt.consistencyFailure] at hqe
  cases hml : alookup t.txs tx.txid with
  | some existing =>
    cases hct : existing.confirmation_time with
    | some et =>
      by_cases hne : conf ≠ some et
      · simp [hml, hct, hne] at hqe
        exact ⟨_, _, _, hqe.symm⟩
      · simp only [hml, hct, hne, ite_false] at hqe
        obtain ⟨txin, _, hin⟩ := exists_of_findSome?_eq_some hqe
        cases hsp : alookup t.spends txin.previous_output with
        | none => simp [hsp] at hin
        | some pr =>
          obtain ⟨vin, ctxid⟩ := pr
          cases hctx : alookup t.txs ctxid with
          | none => simp [hsp, hctx] at hin
          | some caug =>
            cases hcc : caug.confirmation_time with
            | none => simp [hsp, hctx, hcc] at hin
            | some cct =>
              simp only [hsp, hctx, hcc, Option.some.injEq] at hin
              exact ⟨_, _, _, hin.symm⟩
    | none =>
      simp only [hml, hct] at hqe
      obtain ⟨txin, _, hin⟩ := exists_of_findSome?_eq_some hqe
      cases hsp : alookup t.spends txin.previous_output with
      | none => simp [hsp] at hin
      | some pr =>
        obtain ⟨vin, ctxid⟩ := pr
        cases hctx : alookup t.txs ctxid with
        | none => simp [hsp, hctx] at hin
        | some caug =>
          cases hcc : caug.confirmation_time with
          | none => simp [hsp, hctx, hcc] at hin
          | some cct =>
            simp only [hsp, hctx, hcc, Option.some.injEq] at hin
            exact ⟨_, _, _, hin.symm⟩
  | none =>
    simp only [hml] at hqe
    obtain ⟨txin, _, hin⟩ := exists_of_findSome?_eq_some hqe
    cases hsp : alookup t.spends txin.previous_output with
    | none => simp [hsp] at hin
    | some pr =>
      obtain ⟨vin, ctxid⟩ := pr
      cases hctx : alookup t.txs ctxid with
      | none => simp [hsp, hctx] at hin
      | some caug =>
        cases hcc : caug.confirmation_time with
        | none => simp [hsp, hctx, hcc] at hin
        | some cct =>
          simp only [hsp, hctx, hcc, Option.some.injEq] at hin
          exact ⟨_, _, _, hin.symm⟩

theorem apply_update_shape (t : Dt.Tracker) (u : Dt.Update) (r : Dt.UpdateResult)
    (t' : Dt.Tracker) (h : Dt.apply_update t u = (r, t')) :
    (∃ e, Dt.consistencyFailure t u = some e ∧ r = e ∧ t' = t) ∨
    (Dt.consistencyFailure t u = none ∧
      ∃ t₁, (t₁ = t ∨ ∃ lai, u.last_active_index = some lai ∧ t₁ = Dt.derive_scripts t lai) ∧
        ((r = Dt.UpdateResult.Stale ∧ t' = t₁) ∨
         (r = Dt.UpdateResult.Ok ∧
           ∃ t₂, t' = Dt.applyFinish u (Dt.applyGo u t₂)))) := by
  cases hc : Dt.consistencyFailure t u with
  | some e =>
    left
    have happ : Dt.apply_update t u = (e, t) := by
      simp [Dt.apply_update, hc]
    rw [happ] at h
    injection h with h1 h2
    exact ⟨e, rfl, h1.symm, h2.symm⟩
  | none =>
    right
    refine ⟨rfl, ?_⟩
    cases hlai : u.last_active_index with
    | some lai =>
      refine ⟨Dt.derive_scripts t lai, Or.inr ⟨lai, rfl, rfl⟩, ?_⟩
      cases hinv : u.invalidate with
      | some cr =>
        cases hcl : alookup (Dt.derive_scripts t lai).checkpointed_txs cr.height with
        | some q =>
          obtain ⟨ehash, rest⟩ := q
          by_cases hh : ehash = cr.hash
          · have happ : Dt.apply_update t u = (Dt.UpdateResult.Stale, Dt.derive_scripts t lai) := by
              simp [Dt.apply_update, hc, hlai, hinv, hcl, hh]
            rw [happ] at h
            injection h with h1 h2
            exact Or.inl ⟨h1.symm, h2.symm⟩
          · by_cases hbt : Option.map (fun p => Dt.CheckPoint.mk p.1 p.2.1)
                (maxKeyEntryLt (Dt.derive_scripts t lai).checkpointed_txs cr.height) = u.base_tip
            · have happ : Dt.apply_update t u = (Dt.UpdateResult.Ok,
                  Dt.applyFinish u (Dt.applyGo u
                    (Dt.invalidate_checkpoint (Dt.derive_scripts t lai) cr.height))) := by
                simp [Dt.apply_update, hc, hlai, hinv, hcl, hh, hbt]
              rw [happ] at h
              injection h with h1 h2
              exact Or.inr ⟨h1.symm, _, h2.symm⟩
            · have happ : Dt.apply_update t u = (Dt.UpdateResult.Stale, Dt.derive_scripts t lai) := by
                simp [Dt.apply_update, hc, hlai, hinv, hcl, hh, hbt]
              rw [happ] at h
              injection h with h1 h2
              exact Or.inl ⟨h1.symm, h2.symm⟩
        | none =>
          have happ : Dt.apply_update t u = (Dt.UpdateResult.Stale, Dt.derive_scripts t lai) := by
            simp [Dt.apply_update, hc, hlai, hinv, hcl]
          rw [happ] at h
          injection h with h1 h2
          exact Or.inl ⟨h1.symm, h2.symm⟩
      | none =>
        by_cases hbt : u.base_tip = Dt.latest_checkpoint (Dt.derive_scripts t lai)
        · have happ : Dt.apply_update t u = (Dt.UpdateResult.Ok,
              Dt.applyFinish u (Dt.applyGo u (Dt.derive_scripts t lai))) := by
            simp [Dt.apply_update, hc, hlai, hinv, hbt]
          rw [happ] at h
          injection h with h1 h2
          exact Or.inr ⟨h1.symm, _, h2.symm⟩
        · have happ : Dt.apply_update t u = (Dt.UpdateResult.Stale, Dt.derive_scripts t lai) := by
            simp [Dt.apply_update, hc, hlai, hinv, hbt]
          rw [happ] at h
          injection h with h1 h2
          exact Or.inl ⟨h1.symm, h2.symm⟩
    | none =>
      refine ⟨t, Or.inl rfl, ?_⟩
      cases hinv : u.invalidate with
      | some cr =>
        cases hcl : alookup (t).checkpointed_txs cr.height with
        | some q =>
          obtain ⟨ehash, rest⟩ := q
          by_cases hh : ehash = cr.hash
          · have happ : Dt.apply_update t u = (Dt.UpdateResult.Stale, t) := by
              simp [Dt.apply_update, hc, hlai, hinv, hcl, hh]
            rw [happ] at h
            injection h with h1 h2
            exact Or.inl ⟨h1.symm, h2.symm⟩
          · by_cases hbt : Option.map (fun p => Dt.CheckPoint.mk p.1 p.2.1)
                (maxKeyEntryLt (t).checkpointed_txs cr.height) = u.base_tip
            · have happ : Dt.apply_update t u = (Dt.UpdateResult.Ok,
                  Dt.applyFinish u (Dt.applyGo u
                    (Dt.invalidate_checkpoint (t) cr.height))) := by
                simp [Dt.apply_update, hc, hlai, hinv, hcl, hh, hbt]
              rw [happ] at h
              injection h with h1 h2
              exact Or.inr ⟨h1.symm, _, h2.symm⟩
            · have happ : Dt.apply_update t u = (Dt.UpdateResult.Stale, t) := by
                simp [Dt.apply_update, hc, hlai, hinv, hcl, hh, hbt]
              rw [happ] at h
              injection h with h1 h2
              exact Or.inl ⟨h1.symm, h2.symm⟩
        | none =>
          have happ : Dt.apply_update t u = (Dt.UpdateResult.Stale, t) := by
            simp [Dt.apply_update, hc, hlai, hinv, hcl]
          rw [happ] at h
          injection h with h1 h2
          exact Or.inl ⟨h1.symm, h2.symm⟩
      | none =>
        by_cases hbt : u.base_tip = Dt.latest_checkpoint (t)
        · have happ : Dt.apply_update t u = (Dt.UpdateResult.Ok,
              Dt.applyFinish u (Dt.applyGo u (t))) := by
            simp [Dt.apply_update, hc, hlai, hinv, hbt]
          rw [happ] at h
          injection h with h1 h2
          exact Or.inr ⟨h1.symm, _, h2.symm⟩
        · have happ : Dt.apply_update t u = (Dt.UpdateResult.Stale, t) := by
            simp [Dt.apply_update, hc, hlai, hinv, hbt]
          rw [happ] at h
          injection h with h1 h2
          exact Or.inl ⟨h1.symm, h2.symm⟩

/-- C1 (amended): a failed `apply_update` mutates nothing except — on a
`Stale` failure — the derived-script cache: an `Inconsistent` failure leaves
the tracker byte-identical, while a `Stale` failure leaves every component
other than `scripts`, `script_indexes` and `unused` unchanged (those may
grow, because `derive_scripts` for the update's `last_active_index` runs
before the staleness check). -/
theorem apply_update_failure_mutations (t : Dt.Tracker) (u : Dt.Update)
    (r : Dt.UpdateResult) (t' : Dt.Tracker) (h : Dt.apply_update t u = (r, t')) :
    ((∃ a b c, r = Dt.UpdateResult.Inconsistent a b c) → t' = t) ∧
    (r = Dt.UpdateResult.Stale →
      t'.checkpointed_txs = t.checkpointed_txs ∧ t'.txouts = t.txouts ∧
      t'.spends = t.spends ∧ t'.unspent = t.unspent ∧
      t'.script_txouts = t.script_txouts ∧ t'.txs = t.txs ∧
      t'.mempool = t.mempool ∧ t'.latest_blockheight = t.latest_blockheight) := by
  rcases apply_update_shape t u r t' h with ⟨e, _, hr, ht⟩ | ⟨_, t₁, ht₁, hout⟩
  · subst ht
    exact ⟨fun _ => rfl, fun _ => ⟨rfl, rfl, rfl, rfl, rfl, rfl, rfl, rfl⟩⟩
  · rcases hout with ⟨hr, ht⟩ | ⟨hr, _⟩
    · subst hr
      subst ht
      constructor
      · rintro ⟨a, b, c, hre⟩
        cases hre
      · intro _
        rcases ht₁ with rfl | ⟨lai, _, rfl⟩
        · exact ⟨rfl, rfl, rfl, rfl, rfl, rfl, rfl, rfl⟩
        · exact derive_scripts_fields t lai
    · subst hr
      constructor
      · rintro ⟨a, b, c, hre⟩
        cases hre
      · intro hre
        cases hre

/-- Witness for `apply_update_failure_mutations`: the concrete `Stale` run
of `Ex.u1` on a fresh tracker leaves (among the rest) the mempool and
checkpoints unchanged. -/
theorem apply_update_failure_mutations_witness :
    Dt.apply_update (Dt.mkTracker Ex.descr true) Ex.u1 =
      (Dt.UpdateResult.Stale, (Dt.apply_update (Dt.mkTracker Ex.descr true) Ex.u1).2) ∧
    (Dt.apply_update (Dt.mkTracker Ex.descr true) Ex.u1).2.checkpointed_txs =
      (Dt.mkTracker Ex.descr true).checkpointed_txs ∧
    (Dt.apply_update (Dt.mkTracker Ex.descr true) Ex.u1).2.mempool =
      (Dt.mkTracker Ex.descr true).mempool :=
  ⟨rfl,
    (apply_update_failure_mutations (Dt.mkTracker Ex.descr true) Ex.u1
      Dt.UpdateResult.Stale _ rfl).2 rfl |>.1,
    ((apply_update_failure_mutations (Dt.mkTracker Ex.descr true) Ex.u1
      Dt.UpdateResult.Stale _ rfl).2 rfl).2.2.2.2.2.2.1⟩

/-- C10 (amended): the removal at the end of a successful `apply_update` is
keyed on the highest checkpoint, not on the one at `new_tip.height`: after
the update's transactions are added, the entry at `new_tip.height` is
removed exactly when the highest-height checkpoint carries no txids, and
`latest_blockheight` becomes `new_tip.height` in every case; every
successful `apply_update` ends with this `applyFinish` phase; in
particular a purely-mempool update (`Ex.u9` on a fresh tracker) advances
`latest_blockheight` to the new tip height while leaving no checkpoint. -/
theorem apply_update_empty_tip_checkpoint :
    (∀ (u : Dt.Update) (tmid : Dt.Tracker) (H hsh : Nat) (txids : List Nat),
      maxKeyEntry tmid.checkpointed_txs = some (H, hsh, txids) →
      (txids = [] →
        (Dt.applyFinish u tmid).checkpointed_txs =
          aremove tmid.checkpointed_txs u.new_tip.height) ∧
      (txids ≠ [] →
        (Dt.applyFinish u tmid).checkpointed_txs = tmid.checkpointed_txs)) ∧
    (∀ (u : Dt.Update) (tmid : Dt.Tracker),
      (Dt.applyFinish u tmid).latest_blockheight = some u.new_tip.height) ∧
    (∀ (t : Dt.Tracker) (u : Dt.Update) (t' : Dt.Tracker),
      Dt.apply_update t u = (Dt.UpdateResult.Ok, t') →
      ∃ tmid, t' = Dt.applyFinish u (Dt.applyGo u tmid)) ∧
    ((Dt.apply_update (Dt.mkTracker Ex.descr true) Ex.u9).1 = Dt.UpdateResult.Ok ∧
      Ex.t9.checkpointed_txs = [] ∧ Ex.t9.latest_blockheight = some 0) := by
  refine ⟨?_, ?_, ?_, rfl, by decide, rfl⟩
  · intro u tmid H hsh txids hmax
    constructor
    · intro hnil
      subst hnil
      simp [Dt.applyFinish, hmax]
    · intro hne
      simp [Dt.applyFinish, hmax, hne]
  · intro u tmid
    cases hmax : maxKeyEntry tmid.checkpointed_txs with
    | none => simp [Dt.applyFinish, hmax]
    | some q =>
      obtain ⟨H, hsh, txids⟩ := q
      by_cases hnil : txids = []
      · simp [Dt.applyFinish, hmax, hnil]
      · simp [Dt.applyFinish, hmax, hnil]
  · intro t u t' h
    rcases apply_update_shape t u Dt.UpdateResult.Ok t' h with ⟨e, hce, hr, _⟩ | ⟨_, t₁, _, hout⟩
    · obtain ⟨a, b, c, habc⟩ := consistencyFailure_shape t u e hce
      rw [← hr] at habc
      cases habc
    · rcases hout with ⟨hr, _⟩ | ⟨_, t₂, ht⟩
      · cases hr
      · exact ⟨t₂, ht⟩

/-- Witness for `apply_update_empty_tip_checkpoint`: the post-add state of
the `Ex.u10b` run has non-empty highest checkpoint `(5, 55, [77])`, so
`applyFinish` removes nothing. -/
theorem apply_update_empty_tip_checkpoint_witness :
    maxKeyEntry (Dt.applyGo Ex.u10b Ex.t10).checkpointed_txs = some (5, 55, [77]) ∧
    (Dt.applyFinish Ex.u10b (Dt.applyGo Ex.u10b Ex.t10)).checkpointed_txs =
      (Dt.applyGo Ex.u10b Ex.t10).checkpointed_txs :=
  ⟨by decide,
    (apply_update_empty_tip_checkpoint.1 Ex.u10b (Dt.applyGo Ex.u10b Ex.t10)
      5 55 [77] (by decide)).2 (by decide)⟩

theorem removeSpendStep_fields (t : Dt.Tracker) (x : TxIn) :
    (Dt.removeSpendStep t x).checkpointed_txs = t.checkpointed_txs ∧
    (Dt.removeSpendStep t x).txs = t.txs ∧
    (Dt.removeSpendStep t x).mempool = t.mempool := by
  unfold Dt.removeSpendStep
  refine ⟨?_, ?_, ?_⟩ <;>
    by_cases hx : (alookup t.txouts x.previous_output).isSome <;> simp [hx]

theorem removeTxoutStep_fields (txid : Nat) (t : Dt.Tracker) (i : Nat) :
    (Dt.removeTxoutStep txid t i).checkpointed_txs = t.checkpointed_txs ∧
    (Dt.removeTxoutStep txid t i).txs = t.txs ∧
    (Dt.removeTxoutStep txid t i).mempool = t.mempool := by
  unfold Dt.removeTxoutStep
  refine ⟨?_, ?_, ?_⟩ <;>
    cases hx : alookup t.txouts ⟨txid, i⟩ <;> simp [hx]

theorem foldSpendStep_fields (l : List TxIn) : ∀ (t : Dt.Tracker),
    (l.foldl Dt.removeSpendStep t).checkpointed_txs = t.checkpointed_txs ∧
    (l.foldl Dt.removeSpendStep t).txs = t.txs ∧
    (l.foldl Dt.removeSpendStep t).mempool = t.mempool := by
  induction l with
  | nil => exact fun t => ⟨rfl, rfl, rfl⟩
  | cons x l ih =>
    intro t
    rw [List.foldl_cons]
    obtain ⟨h1, h2, h3⟩ := ih (Dt.removeSpendStep t x)
    obtain ⟨g1, g2, g3⟩ := removeSpendStep_fields t x
    exact ⟨h1.trans g1, h2.trans g2, h3.trans g3⟩

theorem foldTxoutStep_fields (txid : Nat) (l : List Nat) : ∀ (t : Dt.Tracker),
    (l.foldl (Dt.removeTxoutStep txid) t).checkpointed_txs = t.checkpointed_txs ∧
    (l.foldl (Dt.removeTxoutStep txid) t).txs = t.txs ∧
    (l.foldl (Dt.removeTxoutStep txid) t).mempool = t.mempool := by
  induction l with
  | nil => exact fun t => ⟨rfl, rfl, rfl⟩
  | cons x l ih =>
    intro t
    rw [List.foldl_cons]
    obtain ⟨h1, h2, h3⟩ := ih (Dt.removeTxoutStep txid t x)
    obtain ⟨g1, g2, g3⟩ := removeTxoutStep_fields txid t x
    exact ⟨h1.trans g1, h2.trans g2, h3.trans g3⟩

theorem alookup_none_not_mem {κ α : Type} [DecidableEq κ] {l : List (κ × α)} {k : κ}
    (h : alookup l k = none) (v : α) : (k, v) ∉ l := by
  induction l with
  | nil => simp
  | cons x l ih =>
    obtain ⟨k', v'⟩ := x
    by_cases hk : k' = k
    · simp [alookup, hk] at h
    · simp only [alookup, hk, ite_false] at h
      intro hmem
      rcases List.mem_cons.mp hmem with he | hmem
      · exact hk (by injection he with h1 _; exact h1.symm)
      · exact ih h hmem

theorem remove_tx_eq (t : Dt.Tracker) (x : Nat) (aug : Dt.AugmentedTx)
    (hl : alookup t.txs x = some aug) :
    Dt.remove_tx t x =
      (let t1 : Dt.Tracker := { t with txs := aremove t.txs x }
       let t2 := aug.tx.input.foldl Dt.removeSpendStep t1
       let t3 := (List.range aug.tx.output.length).foldl (Dt.removeTxoutStep x) t2
       { t3 with mempool := sremove t3.mempool x }) := by
  simp [Dt.remove_tx, hl]

theorem remove_tx_checkpointed (t : Dt.Tracker) (x : Nat) :
    (Dt.remove_tx t x).checkpointed_txs = t.checkpointed_txs := by
  cases hl : alookup t.txs x with
  | none => simp [Dt.remove_tx, hl]
  | some aug =>
    rw [remove_tx_eq t x aug hl]
    simp only
    rw [(foldTxoutStep_fields x _ _).1, (foldSpendStep_fields _ _).1]

theorem remove_tx_txs_mem {t : Dt.Tracker} {x : Nat} {p : Nat × Dt.AugmentedTx}
    (h : p ∈ (Dt.remove_tx t x).txs) : p ∈ t.txs := by
  cases hl : alookup t.txs x with
  | none =>
    rw [Dt.remove_tx] at h
    rw [hl] at h
    exact h
  | some aug =>
    rw [remove_tx_eq t x aug hl] at h
    simp only at h
    rw [(foldTxoutStep_fields x _ _).2.1, (foldSpendStep_fields _ _).2.1] at h
    exact mem_of_mem_aremove h

theorem remove_tx_txs_not_key (t : Dt.Tracker) (x : Nat) (v : Dt.AugmentedTx) :
    (x, v) ∉ (Dt.remove_tx t x).txs := by
  cases hl : alookup t.txs x with
  | none =>
    rw [Dt.remove_tx, hl]
    exact alookup_none_not_mem hl v
  | some aug =>
    rw [remove_tx_eq t x aug hl]
    simp only
    rw [(foldTxoutStep_fields x _ _).2.1, (foldSpendStep_fields _ _).2.1]
    exact not_mem_aremove_key t.txs x v

theorem remove_tx_mempool_nil {t : Dt.Tracker} {x : Nat} (h : t.mempool = []) :
    (Dt.remove_tx t x).mempool = [] := by
  cases hl : alookup t.txs x with
  | none => rw [Dt.remove_tx, hl]; exact h
  | some aug =>
    rw [remove_tx_eq t x aug hl]
    simp only
    rw [(foldTxoutStep_fields x _ _).2.2, (foldSpendStep_fields _ _).2.2]
    simp [h, sremove]

theorem foldRemove_checkpointed (L : List Nat) : ∀ (t : Dt.Tracker),
    (L.foldl Dt.remove_tx t).checkpointed_txs = t.checkpointed_txs := by
  induction L with
  | nil => exact fun t => rfl
  | cons x L ih =>
    intro t
    rw [List.foldl_cons, ih, remove_tx_checkpointed]

theorem foldRemove_txs_mem (L : List Nat) : ∀ (t : Dt.Tracker) (p : Nat × Dt.AugmentedTx),
    p ∈ (L.foldl Dt.remove_tx t).txs → p ∈ t.txs := by
  induction L with
  | nil => exact fun t p h => h
  | cons x L ih =>
    intro t p h
    rw [List.foldl_cons] at h
    exact remove_tx_txs_mem (ih _ _ h)

theorem foldRemove_mempool_nil (L : List Nat) : ∀ {t : Dt.Tracker},
    t.mempool = [] → (L.foldl Dt.remove_tx t).mempool = [] := by
  induction L with
  | nil => exact fun h => h
  | cons x L ih =>
    intro t h
    rw [List.foldl_cons]
    exact ih (remove_tx_mempool_nil h)

theorem foldRemove_not_key (L : List Nat) : ∀ (t : Dt.Tracker) (x : Nat), x ∈ L →
    ∀ v, (x, v) ∉ (L.foldl Dt.remove_tx t).txs := by
  induction L with
  | nil => intro t x h; cases h
  | cons y L ih =>
    intro t x hx v hmem
    rw [List.foldl_cons] at hmem
    rcases List.mem_cons.mp hx with rfl | hx
    · have : (x, v) ∈ (Dt.remove_tx t x).txs := foldRemove_txs_mem L _ _ hmem
      exact remove_tx_txs_not_key t x v this
    · exact ih (Dt.remove_tx t y) x hx v hmem

theorem clear_mempool_fields (t : Dt.Tracker) :
    (Dt.clear_mempool t).checkpointed_txs = t.checkpointed_txs ∧
    (∀ p ∈ (Dt.clear_mempool t).txs, p ∈ t.txs) ∧
    (Dt.clear_mempool t).mempool = [] := by
  have heq : Dt.clear_mempool t =
      t.mempool.foldl Dt.remove_tx { t with mempool := [] } := by
    simp [Dt.clear_mempool]
  rw [heq]
  refine ⟨foldRemove_checkpointed t.mempool _, ?_, foldRemove_mempool_nil t.mempool rfl⟩
  intro p hp
  exact foldRemove_txs_mem t.mempool { t with mempool := [] } p hp

/-- C8: when the checkpoint stored at height `h` carries the given hash and
the tracker satisfies the confirmed-transactions well-formedness (every
confirmed tx is filed under a checkpoint at height at least its
confirmation height, which `add_tx` establishes), `disconnect_block h hash`
leaves no checkpoint at height `≥ h`, no transaction confirmed at height
`≥ h`, and an empty mempool. -/
theorem disconnect_block_spec (t : Dt.Tracker) (h hsh : Nat) (txids0 : List Nat)
    (hwf : Dt.wfConfirmed t = true)
    (hcp : alookup t.checkpointed_txs h = some (hsh, txids0)) :
    (∀ c ∈ (Dt.disconnect_block t h hsh).checkpointed_txs, c.1 < h) ∧
    (∀ p ∈ (Dt.disconnect_block t h hsh).txs, ∀ bt,
      p.2.confirmation_time = some bt → bt.height < h) ∧
    (Dt.disconnect_block t h hsh).mempool = [] := by
  obtain ⟨hcp1, hsub1, hmp1⟩ := clear_mempool_fields t
  have hlook : alookup (Dt.clear_mempool t).checkpointed_txs h = some (hsh, txids0) := by
    rw [hcp1]; exact hcp
  have hdisc : Dt.disconnect_block t h hsh =
      Dt.invalidate_checkpoint (Dt.clear_mempool t) h := by
    simp [Dt.disconnect_block, hlook]
  set t₁ := Dt.clear_mempool t with ht₁
  have hinv : Dt.invalidate_checkpoint t₁ h =
      (((t₁.checkpointed_txs.filter (fun p => h ≤ p.1)).map (fun p => p.2.2)).flatten).foldl
        Dt.remove_tx { t₁ with checkpointed_txs := t₁.checkpointed_txs.filter (fun p => p.1 < h) } := by
    simp [Dt.invalidate_checkpoint]
  rw [hdisc, hinv]
  refine ⟨?_, ?_, ?_⟩
  · intro c hc
    rw [foldRemove_checkpointed] at hc
    simp only at hc
    have := List.mem_filter.mp hc
    exact of_decide_eq_true this.2
  · intro p hp bt hbt
    by_contra hge
    have hge' : h ≤ bt.height := Nat.le_of_not_lt hge
    have hpt : p ∈ t.txs := by
      have hmem0 := foldRemove_txs_mem
        ((List.map (fun p => p.2.2)
          (List.filter (fun p => decide (h ≤ p.1)) t₁.checkpointed_txs)).flatten)
        { t₁ with checkpointed_txs :=
            List.filter (fun p => decide (p.1 < h)) t₁.checkpointed_txs }
        p hp
      simp only at hmem0
      exact hsub1 p hmem0
    have hwf' := List.all_eq_true.mp hwf p hpt
    rw [hbt] at hwf'
    obtain ⟨c, hcmem, hcprop⟩ := List.any_eq_true.mp hwf'
    obtain ⟨hle, hmem⟩ := (Bool.and_eq_true _ _).mp hcprop
    have hle' : bt.height ≤ c.1 := of_decide_eq_true hle
    have hmem' : p.1 ∈ c.2.2 := of_decide_eq_true hmem
    have hcrem : c ∈ t₁.checkpointed_txs.filter (fun p => h ≤ p.1) := by
      rw [hcp1]
      exact List.mem_filter.mpr ⟨hcmem, decide_eq_true (Nat.le_trans hge' hle')⟩
    have hflat : p.1 ∈ ((t₁.checkpointed_txs.filter (fun p => h ≤ p.1)).map
        (fun p => p.2.2)).flatten := by
      rw [List.mem_flatten]
      exact ⟨c.2.2, List.mem_map.mpr ⟨c, hcrem, rfl⟩, hmem'⟩
    have hnk := foldRemove_not_key
      ((t₁.checkpointed_txs.filter (fun p => h ≤ p.1)).map (fun p => p.2.2)).flatten
      { t₁ with checkpointed_txs :=
          List.filter (fun p => decide (p.1 < h)) t₁.checkpointed_txs }
      p.1 hflat p.2
    exact hnk (by simpa using hp)
  · exact foldRemove_mempool_nil _ hmp1

/-- Witness for `disconnect_block_spec`: disconnecting the matching block
`(5, 55)` from `Ex.t10` (one checkpoint carrying the one confirmed tx)
leaves an empty mempool (and, by the theorem, no checkpoint or confirmed tx
at height `≥ 5`). -/
theorem disconnect_block_spec_witness :
    Dt.wfConfirmed Ex.t10 = true ∧
    alookup Ex.t10.checkpointed_txs 5 = some (55, [77]) ∧
    (Dt.disconnect_block Ex.t10 5 55).mempool = [] :=
  ⟨by decide, by decide,
    (disconnect_block_spec Ex.t10 5 55 [77] (by decide) (by decide)).2.2⟩
